import Mathlib

/-!
Shallow embedding of `scripts/repair_base_snapshot.py`.

Modelling conventions, used throughout:

* JSON string fields are `Option String`; `none` models an absent key.
  Python truthiness of `d.get(k)` (absent or empty string is falsy) is
  `truthyOpt` / `isT`.
* Filesystem paths are lists of segments, already absolute and resolved
  (`Path.resolve` is the identity in this model).  A directory store is an
  association list from a key to the stored value; an absent association
  models an absent file or directory.
* `datetime.fromisoformat (created_at.replace "Z" "+00:00")` is an external
  library call; it is modelled by an arbitrary parameter
  `pt : String → Option Int` (`none` models a raised `ValueError`).
* Python's `list.sort(key=...)` is a stable sort by the key
  `(ts is None, ts or datetime.max)`; any stable sort by the same total
  preorder produces the same list, so it is embedded as
  `List.insertionSort` (stable) by the relation `keyLe` below, which is
  exactly the lexicographic order of that Python key.
* File contents read by the script are either absent, present but
  unparseable, or a parsed document: type `Content`.
-/

namespace Repair

/-- Raw content of a document slot on disk: the file may be missing, present
but unparseable by `json.loads`, or parsed into a value of type `α`. -/
inductive Content (α : Type) where
  | missing : Content α
  | malformed : Content α
  | parsed : α → Content α
deriving Repr, DecidableEq

/-- Embeds `load_json` (script lines 10-14): `FileNotFoundError` is caught and
becomes `none`, but a `json.JSONDecodeError` on unparseable content is not
caught and propagates, aborting the run (modelled as `Except.error ()`). -/
def load_json {α : Type} : Content α → Except Unit (Option α)
  | Content.missing => Except.ok none
  | Content.malformed => Except.error ()
  | Content.parsed a => Except.ok (some a)

/-- Embeds `load_snapshot_meta` (script lines 39-43): `except Exception`
catches everything, so both a missing file and unparseable content yield
`None`. -/
def load_snapshot_meta {α : Type} : Content α → Option α
  | Content.missing => none
  | Content.malformed => none
  | Content.parsed a => some a

/-- Python truthiness of an optional JSON string: `None` and `""` are falsy.
Returns the value exactly when it is truthy. -/
def truthyOpt : Option String → Option String
  | none => none
  | some s => if s = "" then none else some s

/-- Boolean form of `truthyOpt`. -/
def isT (o : Option String) : Bool :=
  (truthyOpt o).isSome

/-- A snapshot metadata document (`<id>.meta.json`), restricted to the keys
the script reads: `id`, `created_at`, `manifest_hash`. -/
structure SnapMeta where
  id : Option String
  created_at : Option String
  manifest_hash : Option String
deriving Repr, DecidableEq

/-- Python truthiness of the parsed metadata dict (`if not meta: continue`,
line 52): in this record model the empty dict is the record with no known
keys set. -/
def metaFalsy (m : SnapMeta) : Bool :=
  m.id.isNone && m.created_at.isNone && m.manifest_hash.isNone

/-- Lines 54-61: read `created_at`; if truthy, try to parse it (a parse
failure yields `ts = None`), otherwise `ts = None`.  `pt` stands for the
composite `datetime.fromisoformat (s.replace "Z" "+00:00")`. -/
def parseCreated (pt : String → Option Int) (m : SnapMeta) : Option Int :=
  match m.created_at with
  | none => none
  | some ca => if ca = "" then none else pt ca

/-- Lines 49-63: the candidate list `metas` after the loop and the
`if sid` filter: for each loadable, truthy metadata record with a truthy
`id`, the pair of its id and its (possibly absent) parsed timestamp, in
directory enumeration order. -/
def candOf (pt : String → Option Int) (c : Content SnapMeta) :
    Option (String × Option Int) :=
  match load_snapshot_meta c with
  | none => none
  | some m =>
    if metaFalsy m then none
    else
      match truthyOpt m.id with
      | none => none
      | some sid => some (sid, parseCreated pt m)

/-- See `candOf`: the candidates in directory enumeration order. -/
def pickCandidates (pt : String → Option Int) (files : List (Content SnapMeta)) :
    List (String × Option Int) :=
  files.filterMap (candOf pt)

/-- The sort key order of line 66, `key = (x is None, x or datetime.max)`,
compared lexicographically: a known timestamp sorts before an unknown one,
known timestamps sort ascending, and two unknown timestamps compare equal
(the substituted `datetime.max` is the same on both sides, so the stable
sort keeps their relative order). -/
def tsLe : Option Int → Option Int → Prop
  | some a, some b => a ≤ b
  | some _, none => True
  | none, some _ => False
  | none, none => True

instance tsLe.decRel : DecidableRel tsLe := by
  intro x y
  rcases x with _ | a <;> rcases y with _ | b <;> simp only [tsLe] <;> exact inferInstance

def keyLe (x y : String × Option Int) : Prop :=
  tsLe x.2 y.2

instance keyLe.decRel : DecidableRel keyLe :=
  fun x y => tsLe.decRel x.2 y.2

instance keyLe.total : IsTotal (String × Option Int) keyLe := by
  constructor
  intro x y
  show tsLe x.2 y.2 ∨ tsLe y.2 x.2
  rcases x.2 with _ | a <;> rcases y.2 with _ | b <;> simp only [tsLe] <;> simp [le_total]

instance keyLe.trans : IsTrans (String × Option Int) keyLe := by
  constructor
  intro x y z h1 h2
  show tsLe x.2 z.2
  rw [keyLe] at h1 h2
  rcases hx : x.2 with _ | a <;> rcases hy : y.2 with _ | b <;> rcases hz : z.2 with _ | c <;>
    rw [hx, hy] at h1 <;> rw [hy, hz] at h2 <;> simp only [tsLe] at h1 h2 ⊢ <;>
    first | trivial | exact le_trans h1 h2

/-- Embeds `pick_snapshot_id` (script lines 46-69).  The directory is `none`
when it does not exist, otherwise the list of `*.meta.json` file contents in
enumeration order. -/
def pick_snapshot_id (pt : String → Option Int)
    (snapshots_dir : Option (List (Content SnapMeta))) (prefer : String) :
    Option String :=
  match snapshots_dir with
  | none => none
  | some files =>
    let metas := pickCandidates pt files
    if metas.isEmpty then none
    else
      let sorted := List.insertionSort keyLe metas
      if prefer = "latest" then sorted.getLast?.map Prod.fst
      else sorted.head?.map Prod.fst

/-- A workspace record of the global registry index (the fields the script
reads or writes; `other` stands for all remaining JSON entries, which the
script carries along untouched). -/
structure WsRec where
  workspace_id : Option String
  project_id : Option String
  path : Option (List String)
  base_snapshot_id : Option String
  other : List (String × String)
deriving Repr, DecidableEq

/-- A project record of the global registry index. -/
structure ProjRec where
  project_id : Option String
  project_path : Option (List String)
deriving Repr, DecidableEq

/-- The parsed global registry document `index.json`. -/
structure Index where
  workspaces : List WsRec
  projects : List ProjRec
  other : List (String × String)
deriving Repr, DecidableEq

/-- A workspace-local config document `<path>/.fst/config.json`. -/
structure WsConfig where
  base_snapshot_id : Option String
  current_snapshot_id : Option String
  fork_snapshot_id : Option String
  other : List (String × String)
deriving Repr, DecidableEq

/-- A parent project config document `<root>/fst.json`. -/
structure ParentCfg where
  base_snapshot_id : Option String
  base_workspace_id : Option String
  other : List (String × String)
deriving Repr, DecidableEq

/-- Association-list lookup by key (first match). -/
def alookup {κ : Type} [BEq κ] {β : Type} (l : List (κ × β)) (k : κ) : Option β :=
  (l.find? fun e => e.1 == k).map Prod.snd

/-- Association-list update: replace the first binding of `k`, or append a new
binding at the end (a file write that creates or overwrites one file). -/
def aset {κ : Type} [BEq κ] {β : Type} : List (κ × β) → κ → β → List (κ × β)
  | [], k, v => [(k, v)]
  | e :: rest, k, v => if e.1 == k then (k, v) :: rest else e :: aset rest k v

/-- The workspace-local config store: workspace path to the content of
`<path>/.fst/config.json`; an absent binding is an absent (or unreadable
via `FileNotFoundError`) file.  The main-procedure model assumes stored
documents are well formed; `Content.malformed` behaviour of the loaders is
settled separately on `load_json` / `load_snapshot_meta`. -/
abbrev CfgMap := List (List String × WsConfig)

/-- The snapshot stores: workspace path to the contents of
`<path>/.fst/snapshots`, an association of snapshot id (the stem of
`<id>.meta.json`) to the parsed metadata document.  An absent binding is a
directory that does not exist. -/
abbrev SnapMap := List (List String × List (String × SnapMeta))

/-- The manifest stores: workspace path to the contents of
`<path>/.fst/manifests`, an association of manifest hash (the stem of
`<hash>.json`) to the raw file text. -/
abbrev ManifMap := List (List String × List (String × String))

/-- The parent config store: directory to the content of `<dir>/fst.json`. -/
abbrev ParMap := List (List String × ParentCfg)

/-- The whole on-disk state the script touches. -/
structure FS where
  index : Option Index
  configs : CfgMap
  snapdirs : SnapMap
  manifdirs : ManifMap
  parents : ParMap
deriving Repr, DecidableEq

/-- `pick_snapshot_id (path / ".fst" / "snapshots", prefer="earliest")` read
off the snapshot stores: the directory listing is the association list in
order, every file well formed. -/
def pickAt (pt : String → Option Int) (snap : SnapMap) (p : List String) :
    Option String :=
  pick_snapshot_id pt ((alookup snap p).map fun d => d.map fun e => Content.parsed e.2)
    "earliest"

/-- Lines 114: the dict comprehension `ws_by_id`; comprehension insertion is
last-wins, so membership of `wid` resolves to the last position whose record
has that truthy `workspace_id`.  The position indexes the live list of
records, so later in-place mutations are observed. -/
def wsById (ws : List WsRec) (wid : String) : Option Nat :=
  ((List.range ws.length).filter fun i =>
    match ws.get? i with
    | some w => truthyOpt w.workspace_id == some wid
    | none => false).getLast?

/-- Lines 115-120: `ws_by_project`, the positions (in registry order) of the
records with the given truthy `project_id`. -/
def wsByProject (ws : List WsRec) (pid : String) : List Nat :=
  (List.range ws.length).filter fun i =>
    match ws.get? i with
    | some w => truthyOpt w.project_id == some pid
    | none => false

/-- Embeds `find_parent_root` (lines 28-36) over the parent-config store:
walk upward from `cur` (already resolved) until a directory with `fst.json`
is found; at the filesystem root (`[]`), failing the check, give up. -/
def find_parent_root (par : ParMap) (cur : List String) : Option (List String) :=
  if (alookup par cur).isSome then some cur
  else if cur.isEmpty then none
  else find_parent_root par cur.dropLast
termination_by cur.length
decreasing_by
  rename_i _h1 h2
  have hne : cur ≠ [] := by
    intro hz
    exact h2 (by simp [hz])
  simp only [List.length_dropLast]
  have : cur.length ≠ 0 := fun hz => hne (List.eq_nil_of_length_eq_zero hz)
  omega

/-- Lines 163-176 (and identically 231-244): resolve a project's root
directory: `project_path` if truthy and carrying `fst.json`, else the first
root found by walking up from a project workspace's truthy path, in registry
order. -/
def rootOfAux (par : ParMap) (arr : List WsRec) : List Nat → Option (List String)
  | [] => none
  | i :: rest =>
    match arr.get? i with
    | none => rootOfAux par arr rest
    | some w =>
      match w.path with
      | none => rootOfAux par arr rest
      | some wpath =>
        match find_parent_root par wpath with
        | some r => some r
        | none => rootOfAux par arr rest

/-- See `rootOfAux`; `ws0` supplies the project membership map built once at
startup, `arr` the live records it references. -/
def rootOf (par : ParMap) (ws0 arr : List WsRec) (pid : String)
    (project_path : Option (List String)) : Option (List String) :=
  match project_path with
  | some pp => if (alookup par pp).isSome then some pp else rootOfAux par arr (wsByProject ws0 pid)
  | none => rootOfAux par arr (wsByProject ws0 pid)

/-- Lines 136-148: the in-place repair of one workspace config.  `picked` is
the value `pick_snapshot_id (snapshots_dir, prefer="earliest")` would return
(the call only happens when the first field check fails; the call is pure, so
passing its value is equivalent).  Returns the repaired config and the
`changed` flag. -/
def fixWsConfig (cfg : WsConfig) (picked : Option String) : WsConfig × Bool :=
  let s1 : WsConfig × Bool :=
    if !isT cfg.base_snapshot_id && isT cfg.fork_snapshot_id then
      ({ cfg with base_snapshot_id := cfg.fork_snapshot_id, fork_snapshot_id := none }, true)
    else (cfg, false)
  if !isT s1.1.base_snapshot_id then
    match truthyOpt picked with
    | some bid =>
      ({ s1.1 with
          base_snapshot_id := some bid
          current_snapshot_id :=
            if isT s1.1.current_snapshot_id then s1.1.current_snapshot_id else some bid },
        true)
    | none => s1
  else s1

/-- One iteration of the Phase A loop (lines 128-156) at position `i` of the
registry workspace list.  Returns the updated live records, the updated
config store, and the increments of the `updated_configs` and
`updated_index` counters. -/
def phaseAStep (pt : String → Option Int) (snap : SnapMap) (arr : List WsRec)
    (cfgs : CfgMap) (i : Nat) : List WsRec × CfgMap × Nat × Nat :=
  match arr.get? i with
  | none => (arr, cfgs, 0, 0)
  | some w =>
    match w.path with
    | none => (arr, cfgs, 0, 0)
    | some path =>
      match alookup cfgs path with
      | none => (arr, cfgs, 0, 0)
      | some cfg =>
        let r := fixWsConfig cfg (pickAt pt snap path)
        let cfgs' := if r.2 then aset cfgs path r.1 else cfgs
        let dc := if r.2 then 1 else 0
        if isT r.1.base_snapshot_id && !isT w.base_snapshot_id then
          (arr.set i { w with base_snapshot_id := r.1.base_snapshot_id }, cfgs', dc, 1)
        else (arr, cfgs', dc, 0)

/-- The Phase A loop over the given positions, summing the counters. -/
def phaseARun (pt : String → Option Int) (snap : SnapMap) :
    List Nat → List WsRec → CfgMap → List WsRec × CfgMap × Nat × Nat
  | [], arr, cfgs => (arr, cfgs, 0, 0)
  | i :: rest, arr, cfgs =>
    let s := phaseAStep pt snap arr cfgs i
    let t := phaseARun pt snap rest s.1 s.2.1
    (t.1, t.2.1, s.2.2.1 + t.2.2.1, s.2.2.2 + t.2.2.2)

/-- The yield of one candidate workspace in the Phase B scan (lines 194-205):
skip a record without a truthy path; otherwise its recorded
`base_snapshot_id`, or failing that the earliest pick on its snapshot
directory. -/
def wsYield (pt : String → Option Int) (snap : SnapMap) (arr : List WsRec) (i : Nat) :
    Option String :=
  match arr.get? i with
  | none => none
  | some w =>
    match w.path with
    | none => none
    | some wpath =>
      match truthyOpt w.base_snapshot_id with
      | some b => some b
      | none => pickAt pt snap wpath

/-- Lines 192-205: scan the project's workspaces in registry order and stop
at the first one with a truthy path that yields a resolvable id. -/
def scanCandidates (pt : String → Option Int) (snap : SnapMap) (arr : List WsRec) :
    List Nat → Option (Nat × String)
  | [] => none
  | i :: rest =>
    match wsYield pt snap arr i with
    | some b => some (i, b)
    | none => scanCandidates pt snap arr rest

/-- Lines 186-216: decide what Phase B writes into a parent config that
lacks a truthy `base_snapshot_id`: the resolved (snapshot id, value stored
as `base_workspace_id`) pair, or `none` for no write.  Branch (a) uses the
workspace named by the config's truthy `base_workspace_id` when it is a key
of `ws_by_id`; branch (b) scans the project's workspaces. -/
def phaseBResolve (pt : String → Option Int) (snap : SnapMap) (ws0 arr : List WsRec)
    (pid : String) (pcfg : ParentCfg) : Option (String × Option String) :=
  let viaNamed : Option Nat :=
    match truthyOpt pcfg.base_workspace_id with
    | some bwid => wsById ws0 bwid
    | none => none
  match viaNamed with
  | none =>
    match scanCandidates pt snap arr (wsByProject ws0 pid) with
    | some (i, b) =>
      match arr.get? i with
      | some w => some (b, w.workspace_id)
      | none => none
    | none => none
  | some bi =>
    match arr.get? bi with
    | none => none
    | some w =>
      let bid :=
        match truthyOpt w.base_snapshot_id with
        | some b => some b
        | none =>
          match w.path with
          | some wpath => pickAt pt snap wpath
          | none => none
      match truthyOpt bid with
      | some b => some (b, w.workspace_id)
      | none => none

/-- One iteration of the Phase B loop (lines 159-221) for one project
record, over the parent-config store; returns the store and the increment of
`updated_parents`. -/
def phaseBStep (pt : String → Option Int) (snap : SnapMap) (ws0 arr : List WsRec)
    (p : ProjRec) (par : ParMap) : ParMap × Nat :=
  match truthyOpt p.project_id with
  | none => (par, 0)
  | some pid =>
    match rootOf par ws0 arr pid p.project_path with
    | none => (par, 0)
    | some root =>
      match alookup par root with
      | none => (par, 0)
      | some pcfg =>
        if isT pcfg.base_snapshot_id then (par, 0)
        else
          match phaseBResolve pt snap ws0 arr pid pcfg with
          | some (bid, wid) =>
            (aset par root
              { pcfg with base_snapshot_id := some bid, base_workspace_id := wid }, 1)
          | none => (par, 0)

/-- The Phase B loop over the project records. -/
def phaseBRun (pt : String → Option Int) (snap : SnapMap) (ws0 arr : List WsRec) :
    List ProjRec → ParMap → ParMap × Nat
  | [], par => (par, 0)
  | p :: rest, par =>
    let s := phaseBStep pt snap ws0 arr p par
    let t := phaseBRun pt snap ws0 arr rest s.1
    (t.1, s.2 + t.2)

/-- Embeds `copy_base_snapshot` (lines 72-100) over the snapshot and
manifest stores.  All failure returns happen before any write; `mkdir` with
`exist_ok` materialises an absent directory as an empty store; each of the
two files is written only when not already present. -/
def copy_base_snapshot (st : SnapMap × ManifMap) (source target : List String)
    (base_id : String) : (SnapMap × ManifMap) × Bool :=
  match (alookup st.1 source).bind fun d => alookup d base_id with
  | none => (st, false)
  | some meta =>
    if metaFalsy meta then (st, false)
    else
      match truthyOpt meta.manifest_hash with
      | none => (st, false)
      | some manifest_hash =>
        match (alookup st.2 source).bind fun d => alookup d manifest_hash with
        | none => (st, false)
        | some manifest_text =>
          let tsnap := match alookup st.1 target with
            | some d => d
            | none => []
          let tmanif := match alookup st.2 target with
            | some d => d
            | none => []
          let tsnap' := if (alookup tsnap base_id).isSome then tsnap
            else aset tsnap base_id meta
          let tmanif' := if (alookup tmanif manifest_hash).isSome then tmanif
            else aset tmanif manifest_hash manifest_text
          ((aset st.1 target tsnap', aset st.2 target tmanif'), true)

/-- The inner replication loop (lines 262-267): copy the base snapshot into
every project workspace with a truthy path, counting successes. -/
def replTargets (arr : List WsRec) (bpath : List String) (bid : String) :
    List Nat → SnapMap × ManifMap → (SnapMap × ManifMap) × Nat
  | [], st => (st, 0)
  | i :: rest, st =>
    match arr.get? i with
    | none => replTargets arr bpath bid rest st
    | some w =>
      match w.path with
      | none => replTargets arr bpath bid rest st
      | some wpath =>
        let c := copy_base_snapshot st bpath wpath bid
        let t := replTargets arr bpath bid rest c.1
        (t.1, (if c.2 then 1 else 0) + t.2)

/-- One iteration of the replication loop (lines 227-267) for one project:
re-resolve the root, re-load the parent config, and when it names a truthy
base snapshot and base workspace that resolves to a record with a truthy
path, copy into every project workspace. -/
def replStep (ws0 arr : List WsRec) (par : ParMap) (p : ProjRec)
    (st : SnapMap × ManifMap) : (SnapMap × ManifMap) × Nat :=
  match truthyOpt p.project_id with
  | none => (st, 0)
  | some pid =>
    match rootOf par ws0 arr pid p.project_path with
    | none => (st, 0)
    | some root =>
      match alookup par root with
      | none => (st, 0)
      | some pcfg =>
        match truthyOpt pcfg.base_snapshot_id, truthyOpt pcfg.base_workspace_id with
        | some bid, some bwid =>
          match wsById ws0 bwid with
          | none => (st, 0)
          | some bi =>
            match arr.get? bi with
            | none => (st, 0)
            | some bw =>
              match bw.path with
              | none => (st, 0)
              | some bpath => replTargets arr bpath bid (wsByProject ws0 pid) st
        | _, _ => (st, 0)

/-- The replication loop over the project records. -/
def replRun (ws0 arr : List WsRec) (par : ParMap) :
    List ProjRec → SnapMap × ManifMap → (SnapMap × ManifMap) × Nat
  | [], st => (st, 0)
  | p :: rest, st =>
    let s := replStep ws0 arr par p st
    let t := replRun ws0 arr par rest s.1
    (t.1, s.2 + t.2)

/-- The four summary counters the run reports (lines 269-272). -/
structure Counters where
  updated_configs : Nat
  updated_index : Nat
  updated_parents : Nat
  copied_bases : Nat
deriving Repr, DecidableEq

/-- Embeds `main` (lines 103-272): load the registry index (giving up when
absent), run Phase A over the workspaces, the parent repair over the
projects, persist the registry when any cached pointer was filled in, then
replicate base snapshot content; return the final state and the counters. -/
def mainRun (pt : String → Option Int) (fs : FS) : FS × Counters :=
  match fs.index with
  | none => (fs, ⟨0, 0, 0, 0⟩)
  | some idx =>
    let ws0 := idx.workspaces
    let projects := idx.projects
    let a := phaseARun pt fs.snapdirs (List.range ws0.length) ws0 fs.configs
    let arr := a.1
    let cfgs1 := a.2.1
    let uc := a.2.2.1
    let ui := a.2.2.2
    let b := phaseBRun pt fs.snapdirs ws0 arr projects fs.parents
    let par1 := b.1
    let up := b.2
    let idx1 := if ui > 0 then some ⟨arr, projects, idx.other⟩ else fs.index
    let r := replRun ws0 arr par1 projects (fs.snapdirs, fs.manifdirs)
    let cb := r.2
    ({ index := idx1
       configs := cfgs1
       snapdirs := r.1.1
       manifdirs := r.1.2
       parents := par1 }, ⟨uc, ui, up, cb⟩)

/-- The content of file `k` inside directory `p` of a two-level store. -/
def fileAt {β : Type} (m : List (List String × List (String × β))) (p : List String)
    (k : String) : Option β :=
  (alookup m p).bind fun d => alookup d k

/-- The registry fields Phase A never touches. -/
def wsShape (w : WsRec) : Option String × Option (List String) × List (String × String) :=
  (w.project_id, w.path, w.other)

/-- Phase A stability of one registry position: repeating the loop body at
this position changes nothing.  Expressed on the data the body reads: the
record, its config, and the pick on its snapshot directory. -/
def StableA (pt : String → Option Int) (snap : SnapMap) (arr : List WsRec)
    (cfgs : CfgMap) (i : Nat) : Prop :=
  ∀ w, arr.get? i = some w →
    ∀ path, w.path = some path →
      ∀ cfg, alookup cfgs path = some cfg →
        (isT cfg.base_snapshot_id = true → isT w.base_snapshot_id = true) ∧
        (isT cfg.base_snapshot_id = false →
          isT cfg.fork_snapshot_id = false ∧ truthyOpt (pickAt pt snap path) = none)

/-- Phase B stability of one project record: repeating the loop body for it
changes nothing. -/
def StableB (pt : String → Option Int) (snap : SnapMap) (ws0 arr : List WsRec)
    (p : ProjRec) (par : ParMap) : Prop :=
  ∀ pid, truthyOpt p.project_id = some pid →
    ∀ D, rootOf par ws0 arr pid p.project_path = some D →
      ∀ pcfg, alookup par D = some pcfg →
        isT pcfg.base_snapshot_id = true ∨
        phaseBResolve pt snap ws0 arr pid pcfg = none

/-- The selection rule exactly as claim C9 words it, for comparison with the
code's `wsYield`: a workspace "yields" its recorded `base_snapshot_id`, or
else the earliest pick from its snapshots directory; no path is required for
the recorded-id case. -/
def wsYieldClaim (pt : String → Option Int) (snap : SnapMap) (arr : List WsRec)
    (i : Nat) : Option String :=
  match arr.get? i with
  | none => none
  | some w =>
    match truthyOpt w.base_snapshot_id with
    | some b => some b
    | none =>
      match w.path with
      | some wpath => pickAt pt snap wpath
      | none => none

/-- See `wsYieldClaim`: first workspace yielding an id, as claim C9 words
the scan. -/
def scanClaim (pt : String → Option Int) (snap : SnapMap) (arr : List WsRec) :
    List Nat → Option (Nat × String)
  | [] => none
  | i :: rest =>
    match wsYieldClaim pt snap arr i with
    | some b => some (i, b)
    | none => scanClaim pt snap arr rest

/-- The concrete state for the claim C2 counterexample: workspace `w1` (path
`A`) carries base snapshot `s1` with its metadata and manifest; workspace
`w2` (path `B`) has an empty config and no snapshot directory; the parent
config already names `s1` at `w1`. -/
def fsC2 : FS :=
  { index := some ⟨[⟨some "w1", some "p", some ["A"], some "s1", []⟩,
      ⟨some "w2", some "p", some ["B"], none, []⟩], [⟨some "p", some ["R"]⟩], []⟩
    configs := [(["A"], ⟨some "s1", none, none, []⟩), (["B"], ⟨none, none, none, []⟩)]
    snapdirs := [(["A"], [("s1", ⟨some "s1", none, some "h"⟩)])]
    manifdirs := [(["A"], [("h", "M")])]
    parents := [(["R"], ⟨some "s1", some "w1", []⟩)] }

/-- Phase A of one run (see `mainRun`). -/
def stageA (pt : String → Option Int) (fs : FS) (idx : Index) :
    List WsRec × CfgMap × Nat × Nat :=
  phaseARun pt fs.snapdirs (List.range idx.workspaces.length) idx.workspaces fs.configs

/-- Phase B of one run (see `mainRun`). -/
def stageB (pt : String → Option Int) (fs : FS) (idx : Index) : ParMap × Nat :=
  phaseBRun pt fs.snapdirs idx.workspaces (stageA pt fs idx).1 idx.projects fs.parents

/-- The replication pass of one run (see `mainRun`). -/
def stageR (pt : String → Option Int) (fs : FS) (idx : Index) :
    (SnapMap × ManifMap) × Nat :=
  replRun idx.workspaces (stageA pt fs idx).1 (stageB pt fs idx).1 idx.projects
    (fs.snapdirs, fs.manifdirs)

theorem tsLe_refl (x : Option Int) : tsLe x x := by
  rcases x with _ | a <;> simp [tsLe]

theorem keyLe_refl (x : String × Option Int) : keyLe x x :=
  tsLe_refl x.2

theorem getLast?_mem_aux {α : Type} : ∀ {l : List α} {a : α}, l.getLast? = some a → a ∈ l
  | [], a, h => by simp at h
  | [x], a, h => by
    simp only [List.getLast?_singleton, Option.some.injEq] at h
    simp [h]
  | x :: y :: t, a, h => by
    rw [List.getLast?_cons_cons] at h
    exact List.mem_cons_of_mem x (getLast?_mem_aux h)

theorem sortedHeadLe {l : List (String × Option Int)} {a : String × Option Int}
    (hs : l.Sorted keyLe) (hh : l.head? = some a) : ∀ b ∈ l, keyLe a b := by
  cases l with
  | nil => simp at hh
  | cons x t =>
    simp only [List.head?_cons, Option.some.injEq] at hh
    intro b hb
    rcases List.mem_cons.mp hb with hb2 | hb2
    · rw [hb2, ← hh]
      exact keyLe_refl _
    · rw [← hh]
      exact List.rel_of_sorted_cons hs b hb2

theorem sortedLastGe : ∀ (l : List (String × Option Int)) (a : String × Option Int),
    l.Sorted keyLe → l.getLast? = some a → ∀ b ∈ l, keyLe b a
  | [], _, _, hh => by simp at hh
  | [x], a, _, hh => by
    simp only [List.getLast?_singleton, Option.some.injEq] at hh
    intro b hb
    have hb2 := List.mem_singleton.mp hb
    rw [hb2, ← hh]
    exact keyLe_refl _
  | x :: y :: t, a, hs, hh => by
    rw [List.getLast?_cons_cons] at hh
    intro b hb
    rcases List.mem_cons.mp hb with hb | hb
    · rw [hb]
      exact List.rel_of_sorted_cons hs a (getLast?_mem_aux hh)
    · exact sortedLastGe (y :: t) a (List.Sorted.of_cons hs) hh b hb

theorem pick_earliest_eq {pt : String → Option Int} {files : List (Content SnapMeta)}
    (h : pickCandidates pt files ≠ []) :
    pick_snapshot_id pt (some files) "earliest" =
      (List.insertionSort keyLe (pickCandidates pt files)).head?.map Prod.fst := by
  simp only [pick_snapshot_id]
  rw [if_neg (by simpa [List.isEmpty_iff] using h)]
  rw [if_neg (by decide)]

theorem pick_latest_eq {pt : String → Option Int} {files : List (Content SnapMeta)}
    (h : pickCandidates pt files ≠ []) :
    pick_snapshot_id pt (some files) "latest" =
      (List.insertionSort keyLe (pickCandidates pt files)).getLast?.map Prod.fst := by
  simp only [pick_snapshot_id]
  rw [if_neg (by simpa [List.isEmpty_iff] using h)]
  simp

theorem pickEarliestMin (pt : String → Option Int) (files : List (Content SnapMeta)) :
    ∀ sid, pick_snapshot_id pt (some files) "earliest" = some sid →
      ∃ ts, (sid, ts) ∈ pickCandidates pt files ∧
        ∀ c ∈ pickCandidates pt files, keyLe (sid, ts) c := by
  intro sid h
  have hne : pickCandidates pt files ≠ [] := by
    intro hnil
    rw [pick_snapshot_id] at h
    rw [if_pos (by simp [hnil])] at h
    exact Option.noConfusion h
  rw [pick_earliest_eq hne] at h
  obtain ⟨a, ha, hfst⟩ := Option.map_eq_some'.mp h
  refine ⟨a.2, ?_, ?_⟩
  · have hmem : a ∈ List.insertionSort keyLe (pickCandidates pt files) :=
      List.mem_of_mem_head? ha
    have := (List.perm_insertionSort keyLe (pickCandidates pt files)).mem_iff.mp hmem
    rw [← hfst]
    simpa using this
  · intro c hc
    have hc' : c ∈ List.insertionSort keyLe (pickCandidates pt files) :=
      (List.perm_insertionSort keyLe (pickCandidates pt files)).mem_iff.mpr hc
    have := sortedHeadLe (List.sorted_insertionSort keyLe (pickCandidates pt files)) ha c hc'
    rw [← hfst]
    simpa using this

theorem pickLatestMax (pt : String → Option Int) (files : List (Content SnapMeta)) :
    ∀ sid, pick_snapshot_id pt (some files) "latest" = some sid →
      ∃ ts, (sid, ts) ∈ pickCandidates pt files ∧
        ∀ c ∈ pickCandidates pt files, keyLe c (sid, ts) := by
  intro sid h
  have hne : pickCandidates pt files ≠ [] := by
    intro hnil
    rw [pick_snapshot_id] at h
    rw [if_pos (by simp [hnil])] at h
    exact Option.noConfusion h
  rw [pick_latest_eq hne] at h
  obtain ⟨a, ha, hfst⟩ := Option.map_eq_some'.mp h
  refine ⟨a.2, ?_, ?_⟩
  · have hmem : a ∈ List.insertionSort keyLe (pickCandidates pt files) :=
      getLast?_mem_aux ha
    have := (List.perm_insertionSort keyLe (pickCandidates pt files)).mem_iff.mp hmem
    rw [← hfst]
    simpa using this
  · intro c hc
    have hc' : c ∈ List.insertionSort keyLe (pickCandidates pt files) :=
      (List.perm_insertionSort keyLe (pickCandidates pt files)).mem_iff.mpr hc
    have := sortedLastGe _ _ (List.sorted_insertionSort keyLe (pickCandidates pt files)) ha c hc'
    rw [← hfst]
    simpa using this

/-- Claim C3: `pick_snapshot_id` orders the candidate records by presence of
a parsed `created_at` timestamp (records with one before records without)
and then by timestamp ascending: `earliest` returns the id of a candidate
whose key is least, `latest` the id of a candidate whose key is greatest;
in particular, among candidates with timestamps `t1 < t2` and one
untimestamped candidate, `earliest` returns the `t1` candidate's id. -/
theorem c3_pick_snapshot_ordering (pt : String → Option Int)
    (files : List (Content SnapMeta)) :
    (∀ sid, pick_snapshot_id pt (some files) "earliest" = some sid →
      ∃ ts, (sid, ts) ∈ pickCandidates pt files ∧
        ∀ c ∈ pickCandidates pt files, keyLe (sid, ts) c) ∧
    (∀ sid, pick_snapshot_id pt (some files) "latest" = some sid →
      ∃ ts, (sid, ts) ∈ pickCandidates pt files ∧
        ∀ c ∈ pickCandidates pt files, keyLe c (sid, ts)) ∧
    (∀ (i1 i2 i3 : String) (t1 t2 : Int), t1 < t2 →
      List.Perm (pickCandidates pt files) [(i1, some t1), (i2, some t2), (i3, none)] →
      pick_snapshot_id pt (some files) "earliest" = some i1) := by
  refine ⟨pickEarliestMin pt files, pickLatestMax pt files, ?_⟩
  intro i1 i2 i3 t1 t2 hlt hperm
  have hne : pickCandidates pt files ≠ [] := by
    intro hnil
    rw [hnil] at hperm
    have := hperm.length_eq
    simp at this
  have hLne : List.insertionSort keyLe (pickCandidates pt files) ≠ [] := by
    intro h0
    apply hne
    have hp := List.perm_insertionSort keyLe (pickCandidates pt files)
    rw [h0] at hp
    exact (hp.symm).eq_nil
  have hsome : ∃ sid, pick_snapshot_id pt (some files) "earliest" = some sid := by
    rw [pick_earliest_eq hne]
    rw [List.head?_eq_head hLne]
    exact ⟨_, rfl⟩
  obtain ⟨sid, hsid⟩ := hsome
  obtain ⟨ts, hmem, hmin⟩ := pickEarliestMin pt files sid hsid
  have hmem' := hperm.mem_iff.mp hmem
  have h1mem : (i1, some t1) ∈ pickCandidates pt files :=
    hperm.mem_iff.mpr (by simp)
  simp only [List.mem_cons, List.not_mem_nil, or_false, Prod.mk.injEq] at hmem'
  rcases hmem' with ⟨h1, h2⟩ | ⟨h1, h2⟩ | ⟨h1, h2⟩
  · rw [hsid, h1]
  · exfalso
    have := hmin (i1, some t1) h1mem
    rw [h2] at this
    simp only [keyLe, tsLe] at this
    omega
  · exfalso
    have := hmin (i1, some t1) h1mem
    rw [h2] at this
    simp only [keyLe, tsLe] at this

/-- Claim C3 witness: a concrete directory with snapshots timestamped 1 and
2 and an untimestamped one; `earliest` picks the id of the first. -/
theorem c3_witness :
    pick_snapshot_id (fun s => if s = "1" then some 1 else if s = "2" then some 2 else none)
      (some [Content.parsed ⟨some "b", some "2", none⟩,
             Content.parsed ⟨some "c", some "x", none⟩,
             Content.parsed ⟨some "a", some "1", none⟩]) "earliest" = some "a" :=
  (c3_pick_snapshot_ordering
      (fun s => if s = "1" then some 1 else if s = "2" then some 2 else none) _).2.2
    "a" "b" "c" 1 2 (by decide) (by decide)

theorem pick_none_iff (pt : String → Option Int) (prefer : String)
    (files : List (Content SnapMeta)) :
    pick_snapshot_id pt (some files) prefer = none ↔ pickCandidates pt files = [] := by
  constructor
  · intro h
    by_contra hne
    have hLne : List.insertionSort keyLe (pickCandidates pt files) ≠ [] := by
      intro h0
      apply hne
      have hp := List.perm_insertionSort keyLe (pickCandidates pt files)
      rw [h0] at hp
      exact (hp.symm).eq_nil
    rw [pick_snapshot_id] at h
    rw [if_neg (by simpa [List.isEmpty_iff] using hne)] at h
    rcases Decidable.em (prefer = "latest") with hp | hp
    · rw [if_pos hp, List.getLast?_eq_getLast _ hLne] at h
      exact Option.noConfusion h
    · rw [if_neg hp, List.head?_eq_head hLne] at h
      exact Option.noConfusion h
  · intro h
    rw [pick_snapshot_id]
    rw [if_pos (by simp [h])]

/-- Claim C4: `pick_snapshot_id` returns absence (not an error) exactly when
the directory does not exist or no loadable metadata record carries a truthy
`id`: records without an id are discarded, and a missing or unparseable
`created_at` does not disqualify a record that has one. -/
theorem candOf_none_iff (pt : String → Option Int) (c : Content SnapMeta) :
    candOf pt c = none ↔ ∀ m, load_snapshot_meta c = some m → isT m.id = false := by
  cases c with
  | missing => simp [candOf, load_snapshot_meta]
  | malformed => simp [candOf, load_snapshot_meta]
  | parsed m =>
    simp only [candOf, load_snapshot_meta, Option.some.injEq, forall_eq']
    rcases hb : metaFalsy m with _ | _
    · rw [if_neg (by simp [hb])]
      rcases hid : truthyOpt m.id with _ | v
      · simp [isT, hid]
      · simp [isT, hid]
    · rw [if_pos (by simp [hb])]
      have hidn : m.id = none := by
        unfold metaFalsy at hb
        simp only [Bool.and_eq_true, Option.isNone_iff_eq_none] at hb
        exact hb.1.1
      simp [isT, hidn, truthyOpt]

/-- Claim C4: `pick_snapshot_id` returns absence (not an error) exactly when
the directory does not exist or no loadable metadata record carries a truthy
`id`: records without an id are discarded, and a missing or unparseable
`created_at` does not disqualify a record that has one. -/
theorem c4_pick_absent (pt : String → Option Int) (prefer : String)
    (files : List (Content SnapMeta)) :
    pick_snapshot_id pt none prefer = none ∧
    (pick_snapshot_id pt (some files) prefer = none ↔
      ∀ c ∈ files, ∀ m, load_snapshot_meta c = some m → isT m.id = false) := by
  refine ⟨rfl, ?_⟩
  rw [pick_none_iff]
  unfold pickCandidates
  rw [List.filterMap_eq_nil_iff]
  constructor
  · intro h c hc m hm
    exact (candOf_none_iff pt c).mp (h c hc) m hm
  · intro h c hc
    exact (candOf_none_iff pt c).mpr (h c hc)

/-- Claim C4 witness: a directory holding one unparseable file, one record
without an id, and one empty record yields absence. -/
theorem c4_witness :
    pick_snapshot_id (fun _ => none)
      (some [Content.malformed, Content.parsed ⟨none, some "bad-ts", some "h"⟩,
             Content.parsed ⟨none, none, none⟩]) "latest" = none :=
  (c4_pick_absent (fun _ => none) "latest" _).2.mpr (by
    intro c hc m hm
    fin_cases hc
    · simp [load_snapshot_meta] at hm
    · simp only [load_snapshot_meta, Option.some.injEq] at hm
      rw [← hm]
      rfl
    · simp only [load_snapshot_meta, Option.some.injEq] at hm
      rw [← hm]
      rfl)

/-- Claim C1 counterexample: `load_json` does not treat present-but-unparseable
content identically to an absent document — absence yields `ok none` while
unparseable content raises (the `JSONDecodeError` is outside the caught
`FileNotFoundError` class), so every document loaded through `load_json`
(workspace local config, parent project config, the global registry index,
and the snapshot metadata read during replication) crashes the run when
unparseable. -/
theorem c1_counterexample :
    @load_json SnapMeta Content.malformed = Except.error () ∧
    @load_json SnapMeta Content.missing = Except.ok none ∧
    @load_json SnapMeta Content.malformed ≠ @load_json SnapMeta Content.missing := by
  refine ⟨rfl, rfl, ?_⟩
  intro h
  simp [load_json] at h

/-- Claim C1 (amended): only the snapshot metadata records read during
snapshot resolution (`load_snapshot_meta`, whose `except Exception` catches
parse errors) treat present-but-unparseable content identically to an absent
document; the documents read through `load_json` instead propagate the parse
error and abort the run. -/
theorem c1_amended :
    @load_snapshot_meta SnapMeta Content.malformed = @load_snapshot_meta SnapMeta Content.missing ∧
    @load_snapshot_meta SnapMeta Content.malformed = none ∧
    @load_json SnapMeta Content.malformed = Except.error () :=
  ⟨rfl, rfl, rfl⟩

theorem alookup_cons {κ : Type} [BEq κ] {β : Type} (e : κ × β) (l : List (κ × β)) (k : κ) :
    alookup (e :: l) k = if e.1 == k then some e.2 else alookup l k := by
  rcases h : e.1 == k with _ | _
  · simp [alookup, List.find?, h]
  · simp [alookup, List.find?, h]

theorem alookup_aset_self {κ : Type} [BEq κ] [LawfulBEq κ] {β : Type}
    (l : List (κ × β)) (k : κ) (v : β) : alookup (aset l k v) k = some v := by
  induction l with
  | nil => simp [aset, alookup_cons, alookup]
  | cons e rest ih =>
    rcases h : e.1 == k with _ | _
    · rw [aset, if_neg (by simp [h]), alookup_cons, if_neg (by simp [h])]
      exact ih
    · rw [aset, if_pos (by simp [h]), alookup_cons]
      simp

theorem alookup_aset_ne {κ : Type} [BEq κ] [LawfulBEq κ] {β : Type}
    (l : List (κ × β)) (k k2 : κ) (v : β) (hne : k2 ≠ k) :
    alookup (aset l k v) k2 = alookup l k2 := by
  induction l with
  | nil =>
    rw [aset, alookup_cons, if_neg (by simp only [beq_iff_eq]; exact fun h => hne h.symm)]
  | cons e rest ih =>
    rcases h : e.1 == k with _ | _
    · rw [aset, if_neg (by simp [h]), alookup_cons, alookup_cons, ih]
    · have he : e.1 = k := by simpa [beq_iff_eq] using h
      rw [aset, if_pos (by simp [h]), alookup_cons, alookup_cons]
      rw [if_neg (show ¬((k == k2) = true) by
        simp only [beq_iff_eq]; exact fun hn => hne hn.symm)]
      rw [if_neg (show ¬((e.1 == k2) = true) by
        simp only [beq_iff_eq, he]; exact fun hn => hne hn.symm)]


/-- Claim C8: replication (`copy_base_snapshot`) writes the base snapshot's
metadata document into a target workspace's snapshot store only when no
document for that snapshot id is already there, and the manifest document
under its hash only when not already present: any pre-existing file's
content is preserved verbatim, even if it differs from the source's; and a
fresh metadata write copies exactly the source document. -/
theorem c8_copy_no_clobber (st : SnapMap × ManifMap) (source target : List String)
    (base_id : String) :
    (∀ m0, fileAt st.1 target base_id = some m0 →
      fileAt (copy_base_snapshot st source target base_id).1.1 target base_id = some m0) ∧
    (∀ h0 c0, fileAt st.2 target h0 = some c0 →
      fileAt (copy_base_snapshot st source target base_id).1.2 target h0 = some c0) ∧
    ((copy_base_snapshot st source target base_id).2 = true →
      fileAt st.1 target base_id = none →
      fileAt (copy_base_snapshot st source target base_id).1.1 target base_id =
        fileAt st.1 source base_id) := by
  unfold copy_base_snapshot
  rcases h1 : (alookup st.1 source).bind (fun d => alookup d base_id) with _ | meta
  · simp only [h1]
    exact ⟨fun _ h => h, fun _ _ h => h, by simp⟩
  · simp only [h1]
    rcases h2 : metaFalsy meta with _ | _
    · simp only [h2, Bool.false_eq_true, if_false]
      rcases h3 : truthyOpt meta.manifest_hash with _ | mh
      · simp only [h3]
        exact ⟨fun _ h => h, fun _ _ h => h, by simp⟩
      · simp only [h3]
        rcases h4 : (alookup st.2 source).bind (fun d => alookup d mh) with _ | mtext
        · simp only [h4]
          exact ⟨fun _ h => h, fun _ _ h => h, by simp⟩
        · simp only [h4]
          refine ⟨?_, ?_, ?_⟩
          · intro m0 hm0
            rcases hd : alookup st.1 target with _ | d
            · rw [fileAt, hd] at hm0
              exact Option.noConfusion hm0
            · rw [fileAt, hd] at hm0
              simp only [Option.some_bind] at hm0
              simp only [fileAt, hd, alookup_aset_self, Option.some_bind, hm0,
                Option.isSome_some, if_true]
          · intro h0 c0 hc0
            rcases hd : alookup st.2 target with _ | dm
            · rw [fileAt, hd] at hc0
              exact Option.noConfusion hc0
            · rw [fileAt, hd] at hc0
              simp only [Option.some_bind] at hc0
              simp only [fileAt, hd, alookup_aset_self, Option.some_bind]
              rcases Decidable.em (h0 = mh) with he | he
              · rw [he] at hc0 ⊢
                rw [hc0]
                simp [hc0]
              · rcases hpres : (alookup dm mh).isSome with _ | _
                · simp only [hpres, Bool.false_eq_true, if_false]
                  rw [alookup_aset_ne dm mh h0 mtext he]
                  exact hc0
                · simp only [hpres, if_true]
                  exact hc0
          · intro _ habs
            rcases hd : alookup st.1 target with _ | d
            · simp only [fileAt, hd, alookup_aset_self, Option.some_bind]
              have : (alookup ([] : List (String × SnapMeta)) base_id) = none := by
                simp [alookup]
              simp only [this, Option.isSome_none, Bool.false_eq_true, if_false]
              rw [alookup_aset_self]
              exact h1.symm
            · rw [fileAt, hd] at habs
              simp only [Option.some_bind] at habs
              simp only [fileAt, hd, alookup_aset_self, Option.some_bind, habs,
                Option.isSome_none, Bool.false_eq_true, if_false]
              exact h1.symm
    · simp only [h2, if_true]
      exact ⟨fun _ h => h, fun _ _ h => h, by simp⟩

/-- Claim C8 witness: a target that already holds a corrupted manifest under
the source's hash keeps its bytes after a successful copy. -/
theorem c8_witness :
    fileAt (copy_base_snapshot
        ([(["A"], [("s1", ⟨some "s1", none, some "h"⟩)]),
          (["B"], [])],
         [(["A"], [("h", "good")]), (["B"], [("h", "corrupt")])])
        ["A"] ["B"] "s1").1.2 ["B"] "h" = some "corrupt" :=
  (c8_copy_no_clobber
      ([(["A"], [("s1", ⟨some "s1", none, some "h"⟩)]), (["B"], [])],
       [(["A"], [("h", "good")]), (["B"], [("h", "corrupt")])])
      ["A"] ["B"] "s1").2.1 "h" "corrupt" (by decide)

theorem truthyOpt_some_ne {o : Option String} {b : String} (h : truthyOpt o = some b) :
    b ≠ "" := by
  rcases o with _ | s
  · simp [truthyOpt] at h
  · rw [truthyOpt] at h
    rcases Decidable.em (s = "") with he | he
    · rw [if_pos he] at h
      exact Option.noConfusion h
    · rw [if_neg he] at h
      rw [← Option.some.injEq s b |>.mp h]
      exact he

theorem isT_of_truthyOpt_some {o : Option String} {b : String} (h : truthyOpt o = some b) :
    isT (some b) = true := by
  have hb := truthyOpt_some_ne h
  simp [isT, truthyOpt, hb]

theorem isT_false_iff {o : Option String} : isT o = false ↔ truthyOpt o = none := by
  rw [isT]
  rcases h : truthyOpt o with _ | v <;> simp [h]

theorem fix_noop_truthy {cfg : WsConfig} {pk : Option String}
    (h : isT cfg.base_snapshot_id = true) : fixWsConfig cfg pk = (cfg, false) := by
  rw [fixWsConfig]
  simp only [h, Bool.not_true, Bool.false_and, Bool.false_eq_true, if_false]

theorem fix_migrate {cfg : WsConfig} {pk : Option String}
    (hb : isT cfg.base_snapshot_id = false) (hf : isT cfg.fork_snapshot_id = true) :
    fixWsConfig cfg pk =
      ({ cfg with base_snapshot_id := cfg.fork_snapshot_id, fork_snapshot_id := none },
        true) := by
  rw [fixWsConfig]
  simp only [hb, hf, Bool.not_false, Bool.true_and, if_true]
  rw [if_neg (by simp [hf])]

theorem fix_noop_nothing {cfg : WsConfig} {pk : Option String}
    (hb : isT cfg.base_snapshot_id = false) (hf : isT cfg.fork_snapshot_id = false)
    (hp : truthyOpt pk = none) : fixWsConfig cfg pk = (cfg, false) := by
  rw [fixWsConfig]
  simp only [hb, hf, Bool.not_false, Bool.true_and, Bool.and_false, Bool.false_eq_true,
    if_false]
  rw [if_pos (by simp [hb]), hp]

theorem fix_pick {cfg : WsConfig} {pk : Option String} {b : String}
    (hb : isT cfg.base_snapshot_id = false) (hf : isT cfg.fork_snapshot_id = false)
    (hp : truthyOpt pk = some b) :
    fixWsConfig cfg pk =
      ({ cfg with
          base_snapshot_id := some b
          current_snapshot_id :=
            if isT cfg.current_snapshot_id then cfg.current_snapshot_id else some b },
        true) := by
  rw [fixWsConfig]
  simp only [hb, hf, Bool.not_false, Bool.true_and, Bool.and_false, Bool.false_eq_true,
    if_false]
  rw [if_pos (by simp [hb]), hp]

theorem fix_unchanged {cfg : WsConfig} {pk : Option String}
    (h : (fixWsConfig cfg pk).2 = false) : (fixWsConfig cfg pk).1 = cfg := by
  rcases hb : isT cfg.base_snapshot_id with _ | _
  · rcases hf : isT cfg.fork_snapshot_id with _ | _
    · rcases hp : truthyOpt pk with _ | v
      · rw [fix_noop_nothing hb hf hp]
      · rw [fix_pick hb hf hp] at h
        exact Bool.noConfusion h
    · rw [fix_migrate hb hf] at h
      exact Bool.noConfusion h
  · rw [fix_noop_truthy hb]

theorem fix_changed_base {cfg : WsConfig} {pk : Option String}
    (h : (fixWsConfig cfg pk).2 = true) :
    isT (fixWsConfig cfg pk).1.base_snapshot_id = true ∧ isT cfg.base_snapshot_id = false := by
  rcases hb : isT cfg.base_snapshot_id with _ | _
  · rcases hf : isT cfg.fork_snapshot_id with _ | _
    · rcases hp : truthyOpt pk with _ | v
      · rw [fix_noop_nothing hb hf hp] at h
        exact Bool.noConfusion h
      · rw [fix_pick hb hf hp]
        exact ⟨isT_of_truthyOpt_some hp, rfl⟩
    · rw [fix_migrate hb hf]
      refine ⟨?_, rfl⟩
      rcases hfv : cfg.fork_snapshot_id with _ | v
      · rw [hfv] at hf
        simp [isT, truthyOpt] at hf
      · rw [hfv] at hf
        simpa using hf
  · rw [fix_noop_truthy hb] at h
    exact Bool.noConfusion h

theorem fix_base_falsy_inv {cfg : WsConfig} {pk : Option String}
    (h : isT (fixWsConfig cfg pk).1.base_snapshot_id = false) :
    (fixWsConfig cfg pk).1 = cfg ∧ (fixWsConfig cfg pk).2 = false ∧
      isT cfg.fork_snapshot_id = false ∧ truthyOpt pk = none := by
  rcases hc : (fixWsConfig cfg pk).2 with _ | _
  · have h1 := fix_unchanged hc
    rcases hf : isT cfg.fork_snapshot_id with _ | _
    · rcases hp : truthyOpt pk with _ | v
      · exact ⟨h1, rfl, rfl, rfl⟩
      · rw [h1] at h
        rw [fix_pick h hf hp] at hc
        exact Bool.noConfusion hc
    · rw [h1] at h
      rw [fix_migrate h hf] at hc
      exact Bool.noConfusion hc
  · have := (fix_changed_base hc).1
    rw [this] at h
    exact Bool.noConfusion h


theorem stepA_eval_none1 {pt : String → Option Int} {snap : SnapMap} {arr : List WsRec}
    {cfgs : CfgMap} {i : Nat} (hw : arr.get? i = none) :
    phaseAStep pt snap arr cfgs i = (arr, cfgs, 0, 0) := by
  rw [phaseAStep, hw]

theorem stepA_eval_none2 {pt : String → Option Int} {snap : SnapMap} {arr : List WsRec}
    {cfgs : CfgMap} {i : Nat} {w : WsRec} (hw : arr.get? i = some w)
    (hp : w.path = none) : phaseAStep pt snap arr cfgs i = (arr, cfgs, 0, 0) := by
  rw [phaseAStep, hw]
  simp only [hp]

theorem stepA_eval_none3 {pt : String → Option Int} {snap : SnapMap} {arr : List WsRec}
    {cfgs : CfgMap} {i : Nat} {w : WsRec} {path : List String} (hw : arr.get? i = some w)
    (hp : w.path = some path) (hc : alookup cfgs path = none) :
    phaseAStep pt snap arr cfgs i = (arr, cfgs, 0, 0) := by
  rw [phaseAStep, hw]
  simp only [hp, hc]

theorem stepA_eval_main {pt : String → Option Int} {snap : SnapMap} {arr : List WsRec}
    {cfgs : CfgMap} {i : Nat} {w : WsRec} {path : List String} {cfg : WsConfig}
    (hw : arr.get? i = some w) (hp : w.path = some path)
    (hc : alookup cfgs path = some cfg) :
    phaseAStep pt snap arr cfgs i =
      (if isT (fixWsConfig cfg (pickAt pt snap path)).1.base_snapshot_id &&
          !isT w.base_snapshot_id then
        (arr.set i
          { w with base_snapshot_id :=
              (fixWsConfig cfg (pickAt pt snap path)).1.base_snapshot_id },
          (if (fixWsConfig cfg (pickAt pt snap path)).2 then
            aset cfgs path (fixWsConfig cfg (pickAt pt snap path)).1 else cfgs),
          (if (fixWsConfig cfg (pickAt pt snap path)).2 then 1 else 0), 1)
      else
        (arr,
          (if (fixWsConfig cfg (pickAt pt snap path)).2 then
            aset cfgs path (fixWsConfig cfg (pickAt pt snap path)).1 else cfgs),
          (if (fixWsConfig cfg (pickAt pt snap path)).2 then 1 else 0), 0)) := by
  rw [phaseAStep, hw]
  simp only [hp, hc]

theorem stableA_noop {pt : String → Option Int} {snap : SnapMap} {arr : List WsRec}
    {cfgs : CfgMap} {i : Nat} (h : StableA pt snap arr cfgs i) :
    phaseAStep pt snap arr cfgs i = (arr, cfgs, 0, 0) := by
  rcases hw : arr.get? i with _ | w
  · exact stepA_eval_none1 hw
  · rcases hp : w.path with _ | path
    · exact stepA_eval_none2 hw hp
    · rcases hc : alookup cfgs path with _ | cfg
      · exact stepA_eval_none3 hw hp hc
      · have hst := h w hw path hp cfg hc
        rw [stepA_eval_main hw hp hc]
        rcases hb : isT cfg.base_snapshot_id with _ | _
        · obtain ⟨hf, hpk⟩ := hst.2 hb
          rw [fix_noop_nothing hb hf hpk]
          simp [hb]
        · have hwb := hst.1 hb
          rw [fix_noop_truthy hb]
          simp [hb, hwb]


theorem get?_some_lt {arr : List WsRec} {i : Nat} {w : WsRec} (h : arr.get? i = some w) :
    i < arr.length := by
  obtain ⟨hlt, _⟩ := List.get?_eq_some.mp h
  exact hlt

theorem stepA_arr_get {pt : String → Option Int} {snap : SnapMap} {arr : List WsRec}
    {cfgs : CfgMap} {i : Nat} (j : Nat) :
    ((phaseAStep pt snap arr cfgs i).1.get? j).map wsShape = (arr.get? j).map wsShape ∧
    ((phaseAStep pt snap arr cfgs i).1.get? j).map WsRec.workspace_id =
      (arr.get? j).map WsRec.workspace_id := by
  rcases hw : arr.get? i with _ | w
  · rw [stepA_eval_none1 hw]
    exact ⟨rfl, rfl⟩
  · rcases hp : w.path with _ | path
    · rw [stepA_eval_none2 hw hp]
      exact ⟨rfl, rfl⟩
    · rcases hc : alookup cfgs path with _ | cfg
      · rw [stepA_eval_none3 hw hp hc]
        exact ⟨rfl, rfl⟩
      · rw [stepA_eval_main hw hp hc]
        rcases hcond : (isT (fixWsConfig cfg (pickAt pt snap path)).1.base_snapshot_id &&
            !isT w.base_snapshot_id) with _ | _
        · simp [hcond]
        · simp only [hcond, if_true]
          rcases Decidable.em (i = j) with rfl | hne
          · rw [List.get?_set_eq, hw]
            exact ⟨rfl, rfl⟩
          · rw [List.get?_set_ne _ _ hne]
            exact ⟨rfl, rfl⟩

theorem stepA_length {pt : String → Option Int} {snap : SnapMap} {arr : List WsRec}
    {cfgs : CfgMap} {i : Nat} : (phaseAStep pt snap arr cfgs i).1.length = arr.length := by
  rcases hw : arr.get? i with _ | w
  · rw [stepA_eval_none1 hw]
  · rcases hp : w.path with _ | path
    · rw [stepA_eval_none2 hw hp]
    · rcases hc : alookup cfgs path with _ | cfg
      · rw [stepA_eval_none3 hw hp hc]
      · rw [stepA_eval_main hw hp hc]
        rcases hcond : (isT (fixWsConfig cfg (pickAt pt snap path)).1.base_snapshot_id &&
            !isT w.base_snapshot_id) with _ | _
        · simp only [hcond, Bool.false_eq_true, if_false]
        · simp only [hcond, if_true]
          exact List.length_set arr i _

theorem stepA_establish (pt : String → Option Int) (snap : SnapMap) (arr : List WsRec)
    (cfgs : CfgMap) (i : Nat) :
    StableA pt snap (phaseAStep pt snap arr cfgs i).1 (phaseAStep pt snap arr cfgs i).2.1 i := by
  rcases hw : arr.get? i with _ | w
  · rw [stepA_eval_none1 hw]
    intro w' hw'
    rw [hw] at hw'
    exact absurd hw' (by simp)
  · rcases hp : w.path with _ | path
    · rw [stepA_eval_none2 hw hp]
      intro w' hw' path' hp'
      rw [hw] at hw'
      rw [(Option.some.inj hw').symm, hp] at hp'
      exact absurd hp' (by simp)
    · rcases hc : alookup cfgs path with _ | cfg
      · rw [stepA_eval_none3 hw hp hc]
        intro w' hw' path' hp' cfg' hc'
        rw [hw] at hw'
        rw [(Option.some.inj hw').symm, hp] at hp'
        rw [(Option.some.inj hp').symm, hc] at hc'
        exact absurd hc' (by simp)
      · rw [stepA_eval_main hw hp hc]
        rcases hcond : (isT (fixWsConfig cfg (pickAt pt snap path)).1.base_snapshot_id &&
            !isT w.base_snapshot_id) with _ | _
        · simp only [hcond, Bool.false_eq_true, if_false]
          intro w' hw' path' hp' cfg' hc'
          rw [hw] at hw'
          have hww := (Option.some.inj hw').symm
          rw [hww, hp] at hp'
          have hpp := (Option.some.inj hp').symm
          have hcfg' : cfg' = (fixWsConfig cfg (pickAt pt snap path)).1 := by
            rcases h2 : (fixWsConfig cfg (pickAt pt snap path)).2 with _ | _
            · rw [h2] at hc'
              simp only [Bool.false_eq_true, if_false] at hc'
              rw [hpp, hc] at hc'
              rw [← Option.some.inj hc', fix_unchanged h2]
            · rw [h2] at hc'
              simp only [if_true] at hc'
              rw [hpp, alookup_aset_self] at hc'
              exact (Option.some.inj hc').symm
          constructor
          · intro hb
            rw [hcfg'] at hb
            rcases hwb : isT w.base_snapshot_id with _ | _
            · exfalso
              rw [hb, hwb] at hcond
              simp at hcond
            · rw [hww]
              exact hwb
          · intro hb
            rw [hcfg'] at hb
            obtain ⟨he, h2, hf, hpk⟩ := fix_base_falsy_inv hb
            rw [hcfg', he, hpp]
            exact ⟨hf, hpk⟩
        · simp only [hcond, if_true]
          intro w' hw' path' hp' cfg' hc'
          rw [List.get?_set_eq, hw] at hw'
          simp only [Option.map_some] at hw'
          have hww := (Option.some.inj hw').symm
          have hpath' : path' = path := by
            rw [hww] at hp'
            rw [show ({ w with base_snapshot_id :=
                (fixWsConfig cfg (pickAt pt snap path)).1.base_snapshot_id } : WsRec).path =
                w.path from rfl, hp] at hp'
            exact (Option.some.inj hp').symm
          have hcfg' : cfg' = (fixWsConfig cfg (pickAt pt snap path)).1 := by
            rcases h2 : (fixWsConfig cfg (pickAt pt snap path)).2 with _ | _
            · rw [h2] at hc'
              simp only [Bool.false_eq_true, if_false] at hc'
              rw [hpath', hc] at hc'
              rw [← Option.some.inj hc', fix_unchanged h2]
            · rw [h2] at hc'
              simp only [if_true] at hc'
              rw [hpath', alookup_aset_self] at hc'
              exact (Option.some.inj hc').symm
          have hbase : isT (fixWsConfig cfg (pickAt pt snap path)).1.base_snapshot_id = true :=
            (Bool.and_eq_true _ _ |>.mp hcond).1
          constructor
          · intro _
            rw [hww]
            exact hbase
          · intro hb
            exfalso
            rw [hcfg', hbase] at hb
            exact Bool.noConfusion hb

theorem stepA_preserve (pt : String → Option Int) (snap : SnapMap) (arr : List WsRec)
    (cfgs : CfgMap) (i j : Nat) (hst : StableA pt snap arr cfgs j) :
    StableA pt snap (phaseAStep pt snap arr cfgs i).1 (phaseAStep pt snap arr cfgs i).2.1 j := by
  rcases Decidable.em (i = j) with rfl | hne
  · rw [stableA_noop hst]
    exact hst
  · rcases hw : arr.get? i with _ | w
    · rw [stepA_eval_none1 hw]
      exact hst
    · rcases hp : w.path with _ | path
      · rw [stepA_eval_none2 hw hp]
        exact hst
      · rcases hc : alookup cfgs path with _ | cfg
        · rw [stepA_eval_none3 hw hp hc]
          exact hst
        · rw [stepA_eval_main hw hp hc]
          have harr : ∀ (a2 : List WsRec), a2 = arr.set i
              { w with base_snapshot_id :=
                  (fixWsConfig cfg (pickAt pt snap path)).1.base_snapshot_id } →
              a2.get? j = arr.get? j := by
            intro a2 ha2
            rw [ha2]
            exact List.get?_set_ne _ arr hne
          have hkey : ∀ cfgs2 : CfgMap,
              (cfgs2 = cfgs ∨
                ((fixWsConfig cfg (pickAt pt snap path)).2 = true ∧
                  cfgs2 = aset cfgs path (fixWsConfig cfg (pickAt pt snap path)).1)) →
              StableA pt snap arr cfgs2 j := by
            intro cfgs2 hcase
            rcases hcase with rfl | ⟨hch, rfl⟩
            · exact hst
            · intro w' hw' path' hp' cfg' hc'
              rcases Decidable.em (path' = path) with rfl | hpe
              · exfalso
                have hbase := (fix_changed_base hch).2
                obtain ⟨hf, hpk⟩ := (hst w' hw' path' hp' cfg hc).2 hbase
                rw [fix_noop_nothing hbase hf hpk] at hch
                exact Bool.noConfusion hch
              · rw [alookup_aset_ne cfgs path path' _ hpe] at hc'
                exact hst w' hw' path' hp' cfg' hc'
          rcases hcond : (isT (fixWsConfig cfg (pickAt pt snap path)).1.base_snapshot_id &&
              !isT w.base_snapshot_id) with _ | _
          · simp only [hcond, Bool.false_eq_true, if_false]
            rcases h2 : (fixWsConfig cfg (pickAt pt snap path)).2 with _ | _
            · simp only [h2, Bool.false_eq_true, if_false]
              exact hkey cfgs (Or.inl rfl)
            · simp only [h2, if_true]
              exact hkey _ (Or.inr ⟨h2, rfl⟩)
          · simp only [hcond, if_true]
            rcases h2 : (fixWsConfig cfg (pickAt pt snap path)).2 with _ | _
            · simp only [h2, Bool.false_eq_true, if_false]
              intro w' hw' path' hp' cfg' hc'
              rw [harr _ rfl] at hw'
              exact hkey cfgs (Or.inl rfl) w' hw' path' hp' cfg' hc'
            · simp only [h2, if_true]
              intro w' hw' path' hp' cfg' hc'
              rw [harr _ rfl] at hw'
              exact hkey _ (Or.inr ⟨h2, rfl⟩) w' hw' path' hp' cfg' hc'

theorem runA_preserve (pt : String → Option Int) (snap : SnapMap) :
    ∀ (l : List Nat) (arr : List WsRec) (cfgs : CfgMap) (j : Nat),
      StableA pt snap arr cfgs j →
      StableA pt snap (phaseARun pt snap l arr cfgs).1 (phaseARun pt snap l arr cfgs).2.1 j
  | [], _, _, _, h => h
  | i :: rest, arr, cfgs, j, h =>
    runA_preserve pt snap rest _ _ j (stepA_preserve pt snap arr cfgs i j h)

theorem runA_stable_all (pt : String → Option Int) (snap : SnapMap) :
    ∀ (l : List Nat) (arr : List WsRec) (cfgs : CfgMap) (j : Nat), j ∈ l →
      StableA pt snap (phaseARun pt snap l arr cfgs).1 (phaseARun pt snap l arr cfgs).2.1 j
  | [], _, _, j, hj => absurd hj (List.not_mem_nil j)
  | i :: rest, arr, cfgs, j, hj => by
    rcases List.mem_cons.mp hj with rfl | hj2
    · exact runA_preserve pt snap rest _ _ j (stepA_establish pt snap arr cfgs j)
    · exact runA_stable_all pt snap rest _ _ j hj2

theorem runA_noop (pt : String → Option Int) (snap : SnapMap) :
    ∀ (l : List Nat) (arr : List WsRec) (cfgs : CfgMap),
      (∀ j ∈ l, StableA pt snap arr cfgs j) →
      phaseARun pt snap l arr cfgs = (arr, cfgs, 0, 0)
  | [], _, _, _ => rfl
  | i :: rest, arr, cfgs, h => by
    rw [phaseARun]
    rw [stableA_noop (h i (List.mem_cons_self i rest))]
    rw [runA_noop pt snap rest arr cfgs (fun j hj => h j (List.mem_cons_of_mem i hj))]
    rfl

theorem runA_arr_get (pt : String → Option Int) (snap : SnapMap) :
    ∀ (l : List Nat) (arr : List WsRec) (cfgs : CfgMap) (j : Nat),
      ((phaseARun pt snap l arr cfgs).1.get? j).map wsShape = (arr.get? j).map wsShape ∧
      ((phaseARun pt snap l arr cfgs).1.get? j).map WsRec.workspace_id =
        (arr.get? j).map WsRec.workspace_id
  | [], _, _, _ => ⟨rfl, rfl⟩
  | i :: rest, arr, cfgs, j => by
    have h1 := @stepA_arr_get pt snap arr cfgs i j
    have h2 := runA_arr_get pt snap rest
      (phaseAStep pt snap arr cfgs i).1 (phaseAStep pt snap arr cfgs i).2.1 j
    exact ⟨h2.1.trans h1.1, h2.2.trans h1.2⟩

theorem runA_length (pt : String → Option Int) (snap : SnapMap) :
    ∀ (l : List Nat) (arr : List WsRec) (cfgs : CfgMap),
      (phaseARun pt snap l arr cfgs).1.length = arr.length
  | [], _, _ => rfl
  | i :: rest, arr, cfgs => by
    have h1 := @stepA_length pt snap arr cfgs i
    have h2 := runA_length pt snap rest
      (phaseAStep pt snap arr cfgs i).1 (phaseAStep pt snap arr cfgs i).2.1
    exact h2.trans h1

theorem stepA_ui_zero {pt : String → Option Int} {snap : SnapMap} {arr : List WsRec}
    {cfgs : CfgMap} {i : Nat} (h : (phaseAStep pt snap arr cfgs i).2.2.2 = 0) :
    (phaseAStep pt snap arr cfgs i).1 = arr := by
  rcases hw : arr.get? i with _ | w
  · rw [stepA_eval_none1 hw]
  · rcases hp : w.path with _ | path
    · rw [stepA_eval_none2 hw hp]
    · rcases hc : alookup cfgs path with _ | cfg
      · rw [stepA_eval_none3 hw hp hc]
      · rw [stepA_eval_main hw hp hc] at h ⊢
        rcases hcond : (isT (fixWsConfig cfg (pickAt pt snap path)).1.base_snapshot_id &&
            !isT w.base_snapshot_id) with _ | _
        · simp only [hcond, Bool.false_eq_true, if_false]
        · rw [hcond] at h
          simp at h

theorem runA_ui_zero (pt : String → Option Int) (snap : SnapMap) :
    ∀ (l : List Nat) (arr : List WsRec) (cfgs : CfgMap),
      (phaseARun pt snap l arr cfgs).2.2.2 = 0 → (phaseARun pt snap l arr cfgs).1 = arr
  | [], _, _, _ => rfl
  | i :: rest, arr, cfgs, h => by
    have hsplit : (phaseAStep pt snap arr cfgs i).2.2.2 = 0 ∧
        (phaseARun pt snap rest (phaseAStep pt snap arr cfgs i).1
          (phaseAStep pt snap arr cfgs i).2.1).2.2.2 = 0 := by
      have : (phaseARun pt snap (i :: rest) arr cfgs).2.2.2 =
          (phaseAStep pt snap arr cfgs i).2.2.2 +
          (phaseARun pt snap rest (phaseAStep pt snap arr cfgs i).1
            (phaseAStep pt snap arr cfgs i).2.1).2.2.2 := rfl
      rw [this] at h
      exact Nat.add_eq_zero.mp h
    have harr := stepA_ui_zero hsplit.1
    have : (phaseARun pt snap (i :: rest) arr cfgs).1 =
        (phaseARun pt snap rest (phaseAStep pt snap arr cfgs i).1
          (phaseAStep pt snap arr cfgs i).2.1).1 := rfl
    rw [this, runA_ui_zero pt snap rest _ _ hsplit.2, harr]

theorem stepA_M_stays {pt : String → Option Int} {snap : SnapMap} {arr : List WsRec}
    {cfgs : CfgMap} {i : Nat} {P : List String} {M : WsConfig}
    (hMM : fixWsConfig M (pickAt pt snap P) = (M, false))
    (hM : alookup cfgs P = some M) :
    alookup (phaseAStep pt snap arr cfgs i).2.1 P = some M := by
  rcases hw : arr.get? i with _ | w
  · rw [stepA_eval_none1 hw]
    exact hM
  · rcases hp : w.path with _ | path
    · rw [stepA_eval_none2 hw hp]
      exact hM
    · rcases hc : alookup cfgs path with _ | cfg
      · rw [stepA_eval_none3 hw hp hc]
        exact hM
      · rw [stepA_eval_main hw hp hc]
        rcases Decidable.em (path = P) with rfl | hpe
        · have hcfg : cfg = M := Option.some.inj (hc.symm.trans hM)
          rw [hcfg, hMM]
          rcases hcond : (isT M.base_snapshot_id && !isT w.base_snapshot_id) with _ | _ <;>
            simp [hcond, hM]
        · rcases h2 : (fixWsConfig cfg (pickAt pt snap path)).2 with _ | _
          · rcases hcond : (isT (fixWsConfig cfg (pickAt pt snap path)).1.base_snapshot_id &&
                !isT w.base_snapshot_id) with _ | _ <;> simp [hcond, h2, hM]
          · rcases hcond : (isT (fixWsConfig cfg (pickAt pt snap path)).1.base_snapshot_id &&
                !isT w.base_snapshot_id) with _ | _ <;>
              simp [hcond, h2, alookup_aset_ne cfgs path P _ (fun h => hpe h.symm), hM]

theorem runA_M_stays (pt : String → Option Int) (snap : SnapMap) {P : List String}
    {M : WsConfig} (hMM : fixWsConfig M (pickAt pt snap P) = (M, false)) :
    ∀ (l : List Nat) (arr : List WsRec) (cfgs : CfgMap), alookup cfgs P = some M →
      alookup (phaseARun pt snap l arr cfgs).2.1 P = some M
  | [], _, _, hM => hM
  | i :: rest, arr, cfgs, hM =>
    runA_M_stays pt snap hMM rest _ _ (stepA_M_stays hMM hM)

theorem stepA_C_cases {pt : String → Option Int} {snap : SnapMap} {arr : List WsRec}
    {cfgs : CfgMap} {i : Nat} {P : List String} {C M : WsConfig}
    (hCM : fixWsConfig C (pickAt pt snap P) = (M, true))
    (hC : alookup cfgs P = some C) :
    alookup (phaseAStep pt snap arr cfgs i).2.1 P = some C ∨
    alookup (phaseAStep pt snap arr cfgs i).2.1 P = some M := by
  rcases hw : arr.get? i with _ | w
  · rw [stepA_eval_none1 hw]
    exact Or.inl hC
  · rcases hp : w.path with _ | path
    · rw [stepA_eval_none2 hw hp]
      exact Or.inl hC
    · rcases hc : alookup cfgs path with _ | cfg
      · rw [stepA_eval_none3 hw hp hc]
        exact Or.inl hC
      · rw [stepA_eval_main hw hp hc]
        rcases Decidable.em (path = P) with rfl | hpe
        · have hcfg : cfg = C := Option.some.inj (hc.symm.trans hC)
          rw [hcfg, hCM]
          right
          rcases hcond : (isT M.base_snapshot_id && !isT w.base_snapshot_id) with _ | _ <;>
            simp [hcond, alookup_aset_self]
        · left
          rcases h2 : (fixWsConfig cfg (pickAt pt snap path)).2 with _ | _
          · rcases hcond : (isT (fixWsConfig cfg (pickAt pt snap path)).1.base_snapshot_id &&
                !isT w.base_snapshot_id) with _ | _ <;> simp [hcond, h2, hC]
          · rcases hcond : (isT (fixWsConfig cfg (pickAt pt snap path)).1.base_snapshot_id &&
                !isT w.base_snapshot_id) with _ | _ <;>
              simp [hcond, h2, alookup_aset_ne cfgs path P _ (fun h => hpe h.symm), hC]

theorem stepA_writes_M {pt : String → Option Int} {snap : SnapMap} {arr : List WsRec}
    {cfgs : CfgMap} {i : Nat} {P : List String} {C M : WsConfig} {w : WsRec}
    (hCM : fixWsConfig C (pickAt pt snap P) = (M, true))
    (hw : arr.get? i = some w) (hp : w.path = some P)
    (hC : alookup cfgs P = some C) :
    alookup (phaseAStep pt snap arr cfgs i).2.1 P = some M := by
  rw [stepA_eval_main hw hp hC, hCM]
  rcases hcond : (isT M.base_snapshot_id && !isT w.base_snapshot_id) with _ | _ <;>
    simp [hcond, alookup_aset_self]

theorem runA_settles (pt : String → Option Int) (snap : SnapMap) {P : List String}
    {C M : WsConfig} (hCM : fixWsConfig C (pickAt pt snap P) = (M, true))
    (hMM : fixWsConfig M (pickAt pt snap P) = (M, false)) :
    ∀ (l : List Nat) (arr : List WsRec) (cfgs : CfgMap) (i : Nat), i ∈ l →
      (∃ w, arr.get? i = some w ∧ w.path = some P) →
      (alookup cfgs P = some C ∨ alookup cfgs P = some M) →
      alookup (phaseARun pt snap l arr cfgs).2.1 P = some M
  | [], _, _, i, hmem, _, _ => absurd hmem (List.not_mem_nil i)
  | j :: rest, arr, cfgs, i, hmem, hex, hCor => by
    rcases hCor with hC | hM
    case inr =>
      exact runA_M_stays pt snap hMM (j :: rest) arr cfgs hM
    case inl =>
      obtain ⟨w, hw, hp⟩ := hex
      rcases Decidable.em (j = i) with rfl | hne
      · have hM1 := stepA_writes_M hCM hw hp hC
        exact runA_M_stays pt snap hMM rest _ _ hM1
      · have hmem2 : i ∈ rest := by
          rcases List.mem_cons.mp hmem with rfl | h2
          · exact absurd rfl hne
          · exact h2
        have hex2 : ∃ w2, (phaseAStep pt snap arr cfgs j).1.get? i = some w2 ∧
            w2.path = some P := by
          have hsh := (@stepA_arr_get pt snap arr cfgs j i).1
          rcases hg : (phaseAStep pt snap arr cfgs j).1.get? i with _ | w2
          · rw [hg, hw] at hsh
            simp at hsh
          · refine ⟨w2, rfl, ?_⟩
            rw [hg, hw] at hsh
            have hsh2 : wsShape w2 = wsShape w := by simpa using hsh
            have hpp : w2.path = w.path := congrArg (fun t => t.2.1) hsh2
            rw [hpp, hp]
        rcases stepA_C_cases hCM hC with h1 | h1
        · exact runA_settles pt snap hCM hMM rest _ _ i hmem2 hex2 (Or.inl h1)
        · exact runA_M_stays pt snap hMM rest _ _ h1

theorem candOf_fst_ne {pt : String → Option Int} {c : Content SnapMeta}
    {x : String × Option Int} (h : candOf pt c = some x) : x.1 ≠ "" := by
  cases c with
  | missing => exact absurd h (by simp [candOf, load_snapshot_meta])
  | malformed => exact absurd h (by simp [candOf, load_snapshot_meta])
  | parsed m =>
    simp only [candOf, load_snapshot_meta] at h
    rcases hb : metaFalsy m with _ | _
    · rw [if_neg (by simp [hb])] at h
      rcases hid : truthyOpt m.id with _ | sid
      · rw [hid] at h
        exact absurd h (by simp)
      · rw [hid] at h
        rw [← Option.some.inj h]
        exact truthyOpt_some_ne hid
    · rw [if_pos (by simp [hb])] at h
      exact absurd h (by simp)

theorem pickAt_ne {pt : String → Option Int} {snap : SnapMap} {P : List String} {b : String}
    (h : pickAt pt snap P = some b) : b ≠ "" := by
  rw [pickAt] at h
  rcases hd : (alookup snap P).map (fun d => d.map fun e => Content.parsed e.2) with _ | files
  · rw [hd] at h
    exact absurd h (by simp [pick_snapshot_id])
  · rw [hd] at h
    obtain ⟨ts, hmem, _⟩ := pickEarliestMin pt files b h
    obtain ⟨c, _, hcand⟩ := List.mem_filterMap.mp hmem
    exact candOf_fst_ne hcand

/-- Claim C5: a workspace local config with an empty or missing
`base_snapshot_id` and a truthy legacy `fork_snapshot_id` is persisted by the
run with `base_snapshot_id` equal to the former `fork_snapshot_id` value and
with no `fork_snapshot_id` field (and nothing else modified). -/
theorem c5_legacy_migration (pt : String → Option Int) (fs : FS) (idx : Index) (i : Nat)
    (w : WsRec) (P : List String) (cfg : WsConfig)
    (hidx : fs.index = some idx)
    (hw : idx.workspaces.get? i = some w)
    (hp : w.path = some P)
    (hc : alookup fs.configs P = some cfg)
    (hb : isT cfg.base_snapshot_id = false)
    (hf : isT cfg.fork_snapshot_id = true) :
    alookup (mainRun pt fs).1.configs P =
      some { cfg with base_snapshot_id := cfg.fork_snapshot_id, fork_snapshot_id := none } := by
  rw [mainRun, hidx]
  have hmem : i ∈ List.range idx.workspaces.length := List.mem_range.mpr (get?_some_lt hw)
  have hCM : fixWsConfig cfg (pickAt pt fs.snapdirs P) =
      ({ cfg with base_snapshot_id := cfg.fork_snapshot_id, fork_snapshot_id := none },
        true) :=
    fix_migrate hb hf
  have hMb : isT ({ cfg with
      base_snapshot_id := cfg.fork_snapshot_id
      fork_snapshot_id := none } : WsConfig).base_snapshot_id = true := hf
  have hMM := @fix_noop_truthy _ (pickAt pt fs.snapdirs P) hMb
  exact runA_settles pt fs.snapdirs hCM hMM _ _ _ i hmem ⟨w, hw, hp⟩ (Or.inl hc)

/-- Claim C5 witness: a concrete workspace with `fork_snapshot_id = "abc"`
and no `base_snapshot_id` ends with `base_snapshot_id = "abc"` and no
`fork_snapshot_id`. -/
theorem c5_witness :
    alookup (mainRun (fun _ => none)
      { index := some ⟨[⟨some "w1", some "p", some ["A"], none, []⟩], [], []⟩
        configs := [(["A"], ⟨none, none, some "abc", []⟩)]
        snapdirs := []
        manifdirs := []
        parents := [] }).1.configs ["A"] = some ⟨some "abc", none, none, []⟩ :=
  c5_legacy_migration (fun _ => none) _ _ 0 ⟨some "w1", some "p", some ["A"], none, []⟩
    ["A"] ⟨none, none, some "abc", []⟩ rfl rfl rfl (by decide) (by decide) (by decide)

/-- Claim C7: a workspace local config that still lacks a truthy
`base_snapshot_id` after legacy migration (no truthy fork either) gets the
earliest pick of its snapshot directory as `base_snapshot_id`, and, when
`current_snapshot_id` is also empty, the same value there; the repaired
config is what the run persists. -/
theorem c7_pick_repair (pt : String → Option Int) (fs : FS) (idx : Index) (i : Nat)
    (w : WsRec) (P : List String) (cfg : WsConfig) (b : String)
    (hidx : fs.index = some idx)
    (hw : idx.workspaces.get? i = some w)
    (hp : w.path = some P)
    (hc : alookup fs.configs P = some cfg)
    (hb : isT cfg.base_snapshot_id = false)
    (hf : isT cfg.fork_snapshot_id = false)
    (hpk : pickAt pt fs.snapdirs P = some b) :
    alookup (mainRun pt fs).1.configs P =
      some { cfg with
        base_snapshot_id := some b
        current_snapshot_id :=
          if isT cfg.current_snapshot_id then cfg.current_snapshot_id else some b } := by
  rw [mainRun, hidx]
  have hbne : b ≠ "" := pickAt_ne hpk
  have hmem : i ∈ List.range idx.workspaces.length := List.mem_range.mpr (get?_some_lt hw)
  have htr : truthyOpt (pickAt pt fs.snapdirs P) = some b := by
    rw [hpk, truthyOpt, if_neg hbne]
  have hCM := fix_pick hb hf htr
  have hMb : isT ({ cfg with
      base_snapshot_id := some b
      current_snapshot_id :=
        if isT cfg.current_snapshot_id then cfg.current_snapshot_id else some b } :
        WsConfig).base_snapshot_id = true := by
    show isT (some b) = true
    simp [isT, truthyOpt, hbne]
  have hMM := @fix_noop_truthy _ (pickAt pt fs.snapdirs P) hMb
  exact runA_settles pt fs.snapdirs hCM hMM _ _ _ i hmem ⟨w, hw, hp⟩ (Or.inl hc)

/-- Claim C7 witness: a workspace with an empty config and one snapshot
`s9` in its directory ends based and current at `s9`. -/
theorem c7_witness :
    alookup (mainRun (fun _ => none)
      { index := some ⟨[⟨some "w1", some "p", some ["A"], none, []⟩], [], []⟩
        configs := [(["A"], ⟨none, none, none, []⟩)]
        snapdirs := [(["A"], [("s9", ⟨some "s9", none, none⟩)])]
        manifdirs := []
        parents := [] }).1.configs ["A"] = some ⟨some "s9", some "s9", none, []⟩ :=
  c7_pick_repair (fun _ => none) _ _ 0 ⟨some "w1", some "p", some ["A"], none, []⟩
    ["A"] ⟨none, none, none, []⟩ "s9" rfl rfl rfl (by decide) (by decide) (by decide)
    (by decide)

theorem stepB_eval_nopid {pt : String → Option Int} {snap : SnapMap} {ws0 arr : List WsRec}
    {p : ProjRec} {par : ParMap} (h : truthyOpt p.project_id = none) :
    phaseBStep pt snap ws0 arr p par = (par, 0) := by
  rw [phaseBStep, h]

theorem stepB_eval_noroot {pt : String → Option Int} {snap : SnapMap} {ws0 arr : List WsRec}
    {p : ProjRec} {par : ParMap} {pid : String}
    (hpid : truthyOpt p.project_id = some pid)
    (hr : rootOf par ws0 arr pid p.project_path = none) :
    phaseBStep pt snap ws0 arr p par = (par, 0) := by
  rw [phaseBStep, hpid]
  simp only [hr]

theorem stepB_eval_nocfg {pt : String → Option Int} {snap : SnapMap} {ws0 arr : List WsRec}
    {p : ProjRec} {par : ParMap} {pid : String} {D : List String}
    (hpid : truthyOpt p.project_id = some pid)
    (hr : rootOf par ws0 arr pid p.project_path = some D)
    (hc : alookup par D = none) :
    phaseBStep pt snap ws0 arr p par = (par, 0) := by
  rw [phaseBStep, hpid]
  simp only [hr, hc]

theorem stepB_eval_truthy {pt : String → Option Int} {snap : SnapMap} {ws0 arr : List WsRec}
    {p : ProjRec} {par : ParMap} {pid : String} {D : List String} {pcfg : ParentCfg}
    (hpid : truthyOpt p.project_id = some pid)
    (hr : rootOf par ws0 arr pid p.project_path = some D)
    (hc : alookup par D = some pcfg)
    (hb : isT pcfg.base_snapshot_id = true) :
    phaseBStep pt snap ws0 arr p par = (par, 0) := by
  rw [phaseBStep, hpid]
  simp only [hr, hc, hb, if_true]

theorem stepB_eval_resolve {pt : String → Option Int} {snap : SnapMap} {ws0 arr : List WsRec}
    {p : ProjRec} {par : ParMap} {pid : String} {D : List String} {pcfg : ParentCfg}
    (hpid : truthyOpt p.project_id = some pid)
    (hr : rootOf par ws0 arr pid p.project_path = some D)
    (hc : alookup par D = some pcfg)
    (hb : isT pcfg.base_snapshot_id = false) :
    phaseBStep pt snap ws0 arr p par =
      (match phaseBResolve pt snap ws0 arr pid pcfg with
        | some (bid, wid) =>
          (aset par D
            { pcfg with base_snapshot_id := some bid, base_workspace_id := wid }, 1)
        | none => (par, 0)) := by
  rw [phaseBStep, hpid]
  simp only [hr, hc, hb, Bool.false_eq_true, if_false]

theorem stepB_truthy_stays {pt : String → Option Int} {snap : SnapMap} {ws0 arr : List WsRec}
    {p : ProjRec} {par : ParMap} {D : List String} {pcfg : ParentCfg}
    (hD : alookup par D = some pcfg) (hb : isT pcfg.base_snapshot_id = true) :
    alookup (phaseBStep pt snap ws0 arr p par).1 D = some pcfg := by
  rcases hpid : truthyOpt p.project_id with _ | pid
  · rw [stepB_eval_nopid hpid]
    exact hD
  · rcases hr : rootOf par ws0 arr pid p.project_path with _ | root
    · rw [stepB_eval_noroot hpid hr]
      exact hD
    · rcases hc : alookup par root with _ | pcfg0
      · rw [stepB_eval_nocfg hpid hr hc]
        exact hD
      · rcases hb0 : isT pcfg0.base_snapshot_id with _ | _
        · rw [stepB_eval_resolve hpid hr hc hb0]
          rcases hres : phaseBResolve pt snap ws0 arr pid pcfg0 with _ | bidwid
          · simp only [hres]
            exact hD
          · simp only [hres]
            have hne : D ≠ root := by
              intro he
              rw [he, hc] at hD
              have hpe : pcfg0 = pcfg := Option.some.inj hD
              rw [← hpe] at hb
              exact Bool.noConfusion (hb0.symm.trans hb)
            rw [alookup_aset_ne par root D _ hne]
            exact hD
        · rw [stepB_eval_truthy hpid hr hc hb0]
          exact hD

theorem runB_truthy_stays (pt : String → Option Int) (snap : SnapMap) (ws0 arr : List WsRec)
    {D : List String} {pcfg : ParentCfg} (hb : isT pcfg.base_snapshot_id = true) :
    ∀ (ps : List ProjRec) (par : ParMap), alookup par D = some pcfg →
      alookup (phaseBRun pt snap ws0 arr ps par).1 D = some pcfg
  | [], _, hD => hD
  | p :: rest, par, hD =>
    runB_truthy_stays pt snap ws0 arr hb rest _ (stepB_truthy_stays hD hb)

/-- Claim C6: a parent project config that already carries a truthy
`base_snapshot_id` is left with exactly its original content by the whole
run, no matter what workspaces exist. -/
theorem c6_parent_untouched (pt : String → Option Int) (fs : FS) (D : List String)
    (pcfg : ParentCfg) (hD : alookup fs.parents D = some pcfg)
    (hb : isT pcfg.base_snapshot_id = true) :
    alookup (mainRun pt fs).1.parents D = some pcfg := by
  rcases hidx : fs.index with _ | idx
  · rw [mainRun, hidx]
    exact hD
  · rw [mainRun, hidx]
    exact runB_truthy_stays pt fs.snapdirs idx.workspaces
      (phaseARun pt fs.snapdirs (List.range idx.workspaces.length) idx.workspaces
        fs.configs).1 hb idx.projects fs.parents hD

/-- Claim C6 witness: a parent config with an explicit base and an eligible
workspace that would otherwise be selected stays untouched. -/
theorem c6_witness :
    alookup (mainRun (fun _ => none)
      { index := some ⟨[⟨some "w1", some "p", some ["A"], some "s1", []⟩],
          [⟨some "p", some ["R"]⟩], []⟩
        configs := []
        snapdirs := []
        manifdirs := []
        parents := [(["R"], ⟨some "x", none, [("k", "v")]⟩)] }).1.parents ["R"] =
      some ⟨some "x", none, [("k", "v")]⟩ :=
  c6_parent_untouched (fun _ => none) _ ["R"] ⟨some "x", none, [("k", "v")]⟩ rfl (by decide)

/-- Claim C10: when the parent config names a `base_workspace_id` that exists
in the registry but whose base snapshot cannot be resolved (no truthy
recorded id, and the earliest pick on its snapshot directory — when it has a
path at all — is absent), Phase B leaves the parent config store unchanged
and does not fall back to scanning the project's other workspaces, whatever
they hold. -/
theorem c10_no_fallback (pt : String → Option Int) (snap : SnapMap) (ws0 arr : List WsRec)
    (p : ProjRec) (par : ParMap) (pid : String) (D : List String) (pcfg : ParentCfg)
    (bwid : String) (i : Nat) (w : WsRec)
    (hpid : truthyOpt p.project_id = some pid)
    (hr : rootOf par ws0 arr pid p.project_path = some D)
    (hc : alookup par D = some pcfg)
    (hbase : isT pcfg.base_snapshot_id = false)
    (hname : truthyOpt pcfg.base_workspace_id = some bwid)
    (hfound : wsById ws0 bwid = some i)
    (hw : arr.get? i = some w)
    (hwb : isT w.base_snapshot_id = false)
    (hpick : ∀ P, w.path = some P → pickAt pt snap P = none) :
    phaseBStep pt snap ws0 arr p par = (par, 0) := by
  rw [stepB_eval_resolve hpid hr hc hbase]
  have hres : phaseBResolve pt snap ws0 arr pid pcfg = none := by
    rw [phaseBResolve, hname]
    simp only [hfound, hw]
    simp only [isT_false_iff.mp hwb]
    rcases hp : w.path with _ | P
    · simp [truthyOpt]
    · simp [hpick P hp, truthyOpt]
  simp only [hres]

/-- Claim C10 witness: the named base workspace `w1` resolves nothing, the
sibling `w2` would resolve `s2`, and the parent config is still untouched. -/
theorem c10_witness :
    scanCandidates (fun _ => none) []
      [⟨some "w1", some "p", none, none, []⟩, ⟨some "w2", some "p", some ["B"], some "s2", []⟩]
      [0, 1] = some (1, "s2") ∧
    phaseBStep (fun _ => none) []
      [⟨some "w1", some "p", none, none, []⟩, ⟨some "w2", some "p", some ["B"], some "s2", []⟩]
      [⟨some "w1", some "p", none, none, []⟩, ⟨some "w2", some "p", some ["B"], some "s2", []⟩]
      ⟨some "p", some ["R"]⟩ [(["R"], ⟨none, some "w1", []⟩)] =
      ([(["R"], ⟨none, some "w1", []⟩)], 0) :=
  ⟨by decide,
    c10_no_fallback (fun _ => none) []
      [⟨some "w1", some "p", none, none, []⟩, ⟨some "w2", some "p", some ["B"], some "s2", []⟩]
      [⟨some "w1", some "p", none, none, []⟩, ⟨some "w2", some "p", some ["B"], some "s2", []⟩]
      ⟨some "p", some ["R"]⟩ [(["R"], ⟨none, some "w1", []⟩)] "p" ["R"]
      ⟨none, some "w1", []⟩ "w1" 0 ⟨some "w1", some "p", none, none, []⟩
      (by decide) (by decide) (by decide) (by decide) (by decide) (by decide) (by decide)
      (by decide) (by intro P hP; exact absurd hP (by simp))⟩

theorem scan_none_iff (pt : String → Option Int) (snap : SnapMap) (arr : List WsRec) :
    ∀ l : List Nat, scanCandidates pt snap arr l = none ↔
      ∀ j ∈ l, wsYield pt snap arr j = none
  | [] => by simp [scanCandidates]
  | j :: rest => by
    rw [scanCandidates]
    rcases hy : wsYield pt snap arr j with _ | b
    · constructor
      · intro h k hk
        rcases List.mem_cons.mp hk with rfl | hk2
        · exact hy
        · exact (scan_none_iff pt snap arr rest).mp h k hk2
      · intro h
        exact (scan_none_iff pt snap arr rest).mpr fun k hk =>
          h k (List.mem_cons_of_mem j hk)
    · constructor
      · intro h
        exact absurd h (by simp)
      · intro h
        exact absurd (h j (List.mem_cons_self j rest)) (by simp [hy])

theorem scan_some_split (pt : String → Option Int) (snap : SnapMap) (arr : List WsRec) :
    ∀ (l : List Nat) (i : Nat) (b : String), scanCandidates pt snap arr l = some (i, b) →
      ∃ l1 l2, l = l1 ++ i :: l2 ∧ (∀ j ∈ l1, wsYield pt snap arr j = none) ∧
        wsYield pt snap arr i = some b
  | [], i, b, h => absurd h (by simp [scanCandidates])
  | j :: rest, i, b, h => by
    rw [scanCandidates] at h
    rcases hy : wsYield pt snap arr j with _ | b0
    · rw [hy] at h
      obtain ⟨l1, l2, hsplit, hnone, hyi⟩ := scan_some_split pt snap arr rest i b h
      refine ⟨j :: l1, l2, by rw [hsplit]; rfl, ?_, hyi⟩
      intro k hk
      rcases List.mem_cons.mp hk with rfl | hk2
      · exact hy
      · exact hnone k hk2
    · rw [hy] at h
      have hpair := Option.some.inj h
      have h1 : j = i := congrArg Prod.fst hpair
      have h2 : b0 = b := congrArg Prod.snd hpair
      refine ⟨[], rest, ?_, by simp, ?_⟩
      · rw [← h1]
        rfl
      · rw [← h1, hy, h2]

/-- Claim C9 (amended): in Phase B, when the parent config lacks a truthy
`base_snapshot_id` and its `base_workspace_id` resolves to no registry entry,
the project's workspaces are scanned in registry order **skipping every
record without a truthy path**; the first workspace with a path that yields
a resolvable id — its recorded `base_snapshot_id`, or else the earliest pick
on its snapshot directory — is selected, and the parent config is persisted
with that workspace's id and the resolved snapshot id; when no workspace
yields an id the parent config store is left untouched. -/
theorem c9_amended (pt : String → Option Int) (snap : SnapMap) (ws0 arr : List WsRec)
    (p : ProjRec) (par : ParMap) (pid : String) (D : List String) (pcfg : ParentCfg)
    (hpid : truthyOpt p.project_id = some pid)
    (hr : rootOf par ws0 arr pid p.project_path = some D)
    (hc : alookup par D = some pcfg)
    (hb : isT pcfg.base_snapshot_id = false)
    (hnamed : ∀ bwid, truthyOpt pcfg.base_workspace_id = some bwid → wsById ws0 bwid = none) :
    (∀ i b w, scanCandidates pt snap arr (wsByProject ws0 pid) = some (i, b) →
      arr.get? i = some w →
      phaseBStep pt snap ws0 arr p par =
        (aset par D
          { pcfg with base_snapshot_id := some b, base_workspace_id := w.workspace_id },
          1)) ∧
    (scanCandidates pt snap arr (wsByProject ws0 pid) = none →
      phaseBStep pt snap ws0 arr p par = (par, 0)) ∧
    (∀ (l : List Nat) (i : Nat) (b : String), scanCandidates pt snap arr l = some (i, b) →
      ∃ l1 l2, l = l1 ++ i :: l2 ∧ (∀ j ∈ l1, wsYield pt snap arr j = none) ∧
        wsYield pt snap arr i = some b) ∧
    (∀ l : List Nat, scanCandidates pt snap arr l = none →
      ∀ j ∈ l, wsYield pt snap arr j = none) := by
  refine ⟨?_, ?_, scan_some_split pt snap arr,
    fun l h => (scan_none_iff pt snap arr l).mp h⟩
  · intro i b w hscan hw
    rw [stepB_eval_resolve hpid hr hc hb]
    have hres : phaseBResolve pt snap ws0 arr pid pcfg = some (b, w.workspace_id) := by
      rw [phaseBResolve]
      rcases hn : truthyOpt pcfg.base_workspace_id with _ | bwid
      · simp only [hn, hscan, hw]
      · simp only [hn, hnamed bwid hn, hscan, hw]
    simp only [hres]
  · intro hscan
    rw [stepB_eval_resolve hpid hr hc hb]
    have hres : phaseBResolve pt snap ws0 arr pid pcfg = none := by
      rw [phaseBResolve]
      rcases hn : truthyOpt pcfg.base_workspace_id with _ | bwid
      · simp only [hn, hscan]
      · simp only [hn, hnamed bwid hn, hscan]
    simp only [hres]


/-- Claim C9 counterexample: a project whose first workspace (in registry
order) has a recorded `base_snapshot_id = "s1"` but no path, and whose second
workspace has a path and `base_snapshot_id = "s2"`.  By the claim's wording
the first workspace yields `s1`, so the parent config should be persisted
with `("w1", "s1")`; the code skips pathless records in the scan and the run
persists `("w2", "s2")`. -/
theorem c9_counterexample :
    scanClaim (fun _ => none) []
      [⟨some "w1", some "p", none, some "s1", []⟩,
       ⟨some "w2", some "p", some ["B"], some "s2", []⟩] [0, 1] = some (0, "s1") ∧
    (mainRun (fun _ => none)
      { index := some ⟨[⟨some "w1", some "p", none, some "s1", []⟩,
          ⟨some "w2", some "p", some ["B"], some "s2", []⟩],
          [⟨some "p", some ["R"]⟩], []⟩
        configs := []
        snapdirs := []
        manifdirs := []
        parents := [(["R"], ⟨none, none, []⟩)] }).1.parents =
      [(["R"], ⟨some "s2", some "w2", []⟩)] := by
  constructor
  · decide
  · decide

/-- Claim C9 (amended) witness: with the pathless `w1` skipped, the scan
selects `w2` and the parent config is persisted with its id and `s2`. -/
theorem c9_witness :
    phaseBStep (fun _ => none) []
      [⟨some "w1", some "p", none, some "s1", []⟩,
       ⟨some "w2", some "p", some ["B"], some "s2", []⟩]
      [⟨some "w1", some "p", none, some "s1", []⟩,
       ⟨some "w2", some "p", some ["B"], some "s2", []⟩]
      ⟨some "p", some ["R"]⟩ [(["R"], ⟨none, none, []⟩)] =
      ([(["R"], ⟨some "s2", some "w2", []⟩)], 1) :=
  (c9_amended (fun _ => none) []
      [⟨some "w1", some "p", none, some "s1", []⟩,
       ⟨some "w2", some "p", some ["B"], some "s2", []⟩]
      [⟨some "w1", some "p", none, some "s1", []⟩,
       ⟨some "w2", some "p", some ["B"], some "s2", []⟩]
      ⟨some "p", some ["R"]⟩ [(["R"], ⟨none, none, []⟩)] "p" ["R"] ⟨none, none, []⟩
      (by decide) (by decide) (by decide) (by decide)
      (by intro bwid h; exact absurd h (by simp [truthyOpt]))).1
    1 "s2" ⟨some "w2", some "p", some ["B"], some "s2", []⟩ (by decide) (by decide)

theorem copy_false {st : SnapMap × ManifMap} {source target : List String} {bid : String}
    (h : (copy_base_snapshot st source target bid).2 = false) :
    (copy_base_snapshot st source target bid).1 = st := by
  rw [copy_base_snapshot] at h ⊢
  rcases h1 : (alookup st.1 source).bind (fun d => alookup d bid) with _ | meta
  · simp only [h1]
  · simp only [h1] at h ⊢
    rcases h2 : metaFalsy meta with _ | _
    · simp only [h2, Bool.false_eq_true, if_false] at h ⊢
      rcases h3 : truthyOpt meta.manifest_hash with _ | mh
      · simp only [h3]
      · simp only [h3] at h ⊢
        rcases h4 : (alookup st.2 source).bind (fun d => alookup d mh) with _ | mtext
        · simp only [h4]
        · simp only [h4] at h
          exact Bool.noConfusion h
    · simp only [h2, if_true]

theorem replTargets_zero {arr : List WsRec} {bpath : List String} {bid : String} :
    ∀ (l : List Nat) (st : SnapMap × ManifMap),
      (replTargets arr bpath bid l st).2 = 0 → (replTargets arr bpath bid l st).1 = st
  | [], _, _ => rfl
  | i :: rest, st, h => by
    rw [replTargets] at h ⊢
    rcases hw : arr.get? i with _ | w
    · simp only [hw] at h ⊢
      exact replTargets_zero rest st h
    · rcases hp : w.path with _ | wpath
      · simp only [hw, hp] at h ⊢
        exact replTargets_zero rest st h
      · simp only [hw, hp] at h ⊢
        have hsum := Nat.add_eq_zero.mp h
        have hc : (copy_base_snapshot st bpath wpath bid).2 = false := by
          rcases hcb : (copy_base_snapshot st bpath wpath bid).2 with _ | _
          · rfl
          · rw [hcb] at hsum
            simp at hsum
        have hst := copy_false hc
        rw [hst] at hsum ⊢
        exact (replTargets_zero rest st hsum.2).trans rfl

theorem replStep_zero {ws0 arr : List WsRec} {par : ParMap} {p : ProjRec}
    {st : SnapMap × ManifMap} (h : (replStep ws0 arr par p st).2 = 0) :
    (replStep ws0 arr par p st).1 = st := by
  rw [replStep] at h ⊢
  rcases h0 : truthyOpt p.project_id with _ | pid
  · simp only [h0]
  · simp only [h0] at h ⊢
    rcases h1 : rootOf par ws0 arr pid p.project_path with _ | root
    · simp only [h1]
    · simp only [h1] at h ⊢
      rcases h2 : alookup par root with _ | pcfg
      · simp only [h2]
      · simp only [h2] at h ⊢
        rcases h3 : truthyOpt pcfg.base_snapshot_id with _ | bid
        · simp only [h3]
        · simp only [h3] at h ⊢
          rcases h4 : truthyOpt pcfg.base_workspace_id with _ | bwid
          · simp only [h4]
          · simp only [h4] at h ⊢
            rcases h5 : wsById ws0 bwid with _ | bi
            · simp only [h5]
            · simp only [h5] at h ⊢
              rcases h6 : arr.get? bi with _ | bw
              · simp only [h6]
              · simp only [h6] at h ⊢
                rcases h7 : bw.path with _ | bpath
                · simp only [h7]
                · simp only [h7] at h ⊢
                  exact replTargets_zero _ _ h

theorem replRun_zero {ws0 arr : List WsRec} {par : ParMap} :
    ∀ (ps : List ProjRec) (st : SnapMap × ManifMap),
      (replRun ws0 arr par ps st).2 = 0 → (replRun ws0 arr par ps st).1 = st
  | [], _, _ => rfl
  | p :: rest, st, h => by
    have hsum : (replStep ws0 arr par p st).2 = 0 ∧
        (replRun ws0 arr par rest (replStep ws0 arr par p st).1).2 = 0 := by
      have he : (replRun ws0 arr par (p :: rest) st).2 =
          (replStep ws0 arr par p st).2 +
          (replRun ws0 arr par rest (replStep ws0 arr par p st).1).2 := rfl
      rw [he] at h
      exact Nat.add_eq_zero.mp h
    have h1 := replStep_zero hsum.1
    have he2 : (replRun ws0 arr par (p :: rest) st).1 =
        (replRun ws0 arr par rest (replStep ws0 arr par p st).1).1 := rfl
    rw [he2, replRun_zero rest _ hsum.2, h1]

theorem aset_keys {par : ParMap} {D0 : List String} {v : ParentCfg}
    (h : (alookup par D0).isSome = true) (k : List String) :
    (alookup (aset par D0 v) k).isSome = (alookup par k).isSome := by
  rcases Decidable.em (k = D0) with rfl | hne
  · rw [alookup_aset_self, h]
    rfl
  · rw [alookup_aset_ne _ _ _ _ hne]

theorem find_parent_root_congr (par1 par2 : ParMap)
    (h : ∀ k, (alookup par1 k).isSome = (alookup par2 k).isSome) (cur0 : List String) :
    find_parent_root par1 cur0 = find_parent_root par2 cur0 := by
  have hgen : ∀ (n : Nat) (cur : List String), cur.length = n →
      find_parent_root par1 cur = find_parent_root par2 cur := by
    intro n
    induction n using Nat.strong_induction_on with
    | _ n ih =>
      intro cur hn
      conv_lhs => rw [find_parent_root]
      conv_rhs => rw [find_parent_root]
      rw [h cur]
      rcases h2 : (alookup par2 cur).isSome with _ | _
      · simp only [h2, Bool.false_eq_true, if_false]
        rcases he : cur.isEmpty with _ | _
        · simp only [he, Bool.false_eq_true, if_false]
          have hne : cur ≠ [] := by
            intro hz
            rw [hz] at he
            exact Bool.noConfusion he
          have hlt : cur.dropLast.length < n := by
            rw [← hn, List.length_dropLast]
            have : cur.length ≠ 0 := fun hz => hne (List.eq_nil_of_length_eq_zero hz)
            omega
          exact ih _ hlt _ rfl
        · simp only [he, if_true]
      · simp only [h2, if_true]
  exact hgen cur0.length cur0 rfl

theorem rootOfAux_congr_par (par1 par2 : ParMap) (arr : List WsRec)
    (h : ∀ k, (alookup par1 k).isSome = (alookup par2 k).isSome) :
    ∀ l : List Nat, rootOfAux par1 arr l = rootOfAux par2 arr l
  | [] => rfl
  | i :: rest => by
    rw [rootOfAux, rootOfAux]
    rcases hw : arr.get? i with _ | w
    · simp only [hw]
      exact rootOfAux_congr_par par1 par2 arr h rest
    · simp only [hw]
      rcases hp : w.path with _ | wpath
      · simp only [hp]
        exact rootOfAux_congr_par par1 par2 arr h rest
      · simp only [hp, find_parent_root_congr par1 par2 h wpath]
        rcases hf : find_parent_root par2 wpath with _ | r
        · simp only [hf]
          exact rootOfAux_congr_par par1 par2 arr h rest
        · simp only [hf]

theorem rootOf_congr_par (par1 par2 : ParMap) (ws0 arr : List WsRec) (pid : String)
    (pp : Option (List String))
    (h : ∀ k, (alookup par1 k).isSome = (alookup par2 k).isSome) :
    rootOf par1 ws0 arr pid pp = rootOf par2 ws0 arr pid pp := by
  rcases pp with _ | p0
  · simp only [rootOf]
    exact rootOfAux_congr_par par1 par2 arr h _
  · simp only [rootOf, h p0]
    rcases h2 : (alookup par2 p0).isSome with _ | _
    · simp only [h2, Bool.false_eq_true, if_false]
      exact rootOfAux_congr_par par1 par2 arr h _
    · simp only [h2, if_true]

theorem wsYield_ne {pt : String → Option Int} {snap : SnapMap} {arr : List WsRec}
    {i : Nat} {b : String} (h : wsYield pt snap arr i = some b) : b ≠ "" := by
  rw [wsYield] at h
  rcases hw : arr.get? i with _ | w
  · simp only [hw] at h
    exact Option.noConfusion h
  · simp only [hw] at h
    rcases hp : w.path with _ | wpath
    · simp only [hp] at h
      exact Option.noConfusion h
    · simp only [hp] at h
      rcases ht : truthyOpt w.base_snapshot_id with _ | b0
      · simp only [ht] at h
        exact pickAt_ne h
      · simp only [ht] at h
        rw [← Option.some.inj h]
        exact truthyOpt_some_ne ht

theorem resolve_ne {pt : String → Option Int} {snap : SnapMap} {ws0 arr : List WsRec}
    {pid : String} {pcfg : ParentCfg} {bid : String} {wid : Option String}
    (h : phaseBResolve pt snap ws0 arr pid pcfg = some (bid, wid)) : bid ≠ "" := by
  rw [phaseBResolve] at h
  rcases hn : truthyOpt pcfg.base_workspace_id with _ | bwid
  · simp only [hn] at h
    rcases hs : scanCandidates pt snap arr (wsByProject ws0 pid) with _ | ib
    · simp only [hs] at h
      exact Option.noConfusion h
    · obtain ⟨i0, b0⟩ := ib
      simp only [hs] at h
      rcases hw : arr.get? i0 with _ | w
      · simp only [hw] at h
        exact Option.noConfusion h
      · simp only [hw, Option.some.injEq, Prod.mk.injEq] at h
        rw [← h.1]
        obtain ⟨l1, l2, _, _, hy⟩ := scan_some_split pt snap arr _ i0 b0 hs
        exact wsYield_ne hy
  · simp only [hn] at h
    rcases hf : wsById ws0 bwid with _ | bi
    · simp only [hf] at h
      rcases hs : scanCandidates pt snap arr (wsByProject ws0 pid) with _ | ib
      · simp only [hs] at h
        exact Option.noConfusion h
      · obtain ⟨i0, b0⟩ := ib
        simp only [hs] at h
        rcases hw : arr.get? i0 with _ | w
        · simp only [hw] at h
          exact Option.noConfusion h
        · simp only [hw, Option.some.injEq, Prod.mk.injEq] at h
          rw [← h.1]
          obtain ⟨l1, l2, _, _, hy⟩ := scan_some_split pt snap arr _ i0 b0 hs
          exact wsYield_ne hy
    · simp only [hf] at h
      rcases hw : arr.get? bi with _ | w
      · simp only [hw] at h
        exact Option.noConfusion h
      · simp only [hw] at h
        rcases hb0 : truthyOpt w.base_snapshot_id with _ | b0
        · simp only [hb0] at h
          rcases hp : w.path with _ | wpath
          · simp only [hp, truthyOpt] at h
            exact Option.noConfusion h
          · simp only [hp] at h
            rcases hpk : pickAt pt snap wpath with _ | b1
            · simp only [hpk, truthyOpt] at h
              exact Option.noConfusion h
            · have hb1 : truthyOpt (some b1) = some b1 := by
                rw [truthyOpt, if_neg (pickAt_ne hpk)]
              simp only [hpk, hb1, Option.some.injEq, Prod.mk.injEq] at h
              rw [← h.1]
              exact pickAt_ne hpk
        · have hb0t : truthyOpt (some b0) = some b0 := by
            rw [truthyOpt, if_neg (truthyOpt_some_ne hb0)]
          simp only [hb0, hb0t, Option.some.injEq, Prod.mk.injEq] at h
          rw [← h.1]
          exact truthyOpt_some_ne hb0


theorem stableB_noop {pt : String → Option Int} {snap : SnapMap} {ws0 arr : List WsRec}
    {p : ProjRec} {par : ParMap} (h : StableB pt snap ws0 arr p par) :
    phaseBStep pt snap ws0 arr p par = (par, 0) := by
  rcases hpid : truthyOpt p.project_id with _ | pid
  · exact stepB_eval_nopid hpid
  · rcases hr : rootOf par ws0 arr pid p.project_path with _ | D
    · exact stepB_eval_noroot hpid hr
    · rcases hc : alookup par D with _ | pcfg
      · exact stepB_eval_nocfg hpid hr hc
      · rcases h pid hpid D hr pcfg hc with hb | hres
        · exact stepB_eval_truthy hpid hr hc hb
        · rcases hb : isT pcfg.base_snapshot_id with _ | _
          · rw [stepB_eval_resolve hpid hr hc hb]
            simp only [hres]
          · exact stepB_eval_truthy hpid hr hc hb

theorem stepB_keys {pt : String → Option Int} {snap : SnapMap} {ws0 arr : List WsRec}
    {p : ProjRec} {par : ParMap} (k : List String) :
    (alookup (phaseBStep pt snap ws0 arr p par).1 k).isSome = (alookup par k).isSome := by
  rcases hpid : truthyOpt p.project_id with _ | pid
  · rw [stepB_eval_nopid hpid]
  · rcases hr : rootOf par ws0 arr pid p.project_path with _ | D
    · rw [stepB_eval_noroot hpid hr]
    · rcases hc : alookup par D with _ | pcfg
      · rw [stepB_eval_nocfg hpid hr hc]
      · rcases hb : isT pcfg.base_snapshot_id with _ | _
        · rw [stepB_eval_resolve hpid hr hc hb]
          rcases hres : phaseBResolve pt snap ws0 arr pid pcfg with _ | bw
          · simp only [hres]
          · obtain ⟨bid, wid⟩ := bw
            simp only [hres]
            exact aset_keys (by rw [hc]; rfl) k
        · rw [stepB_eval_truthy hpid hr hc hb]

theorem stepB_establish (pt : String → Option Int) (snap : SnapMap) (ws0 arr : List WsRec)
    (p : ProjRec) (par : ParMap) :
    StableB pt snap ws0 arr p (phaseBStep pt snap ws0 arr p par).1 := by
  rcases hpid : truthyOpt p.project_id with _ | pid
  · rw [stepB_eval_nopid hpid]
    intro pid2 hpid2
    rw [hpid] at hpid2
    exact absurd hpid2 (by simp)
  · rcases hr : rootOf par ws0 arr pid p.project_path with _ | D
    · rw [stepB_eval_noroot hpid hr]
      intro pid2 hpid2 D2 hr2
      rw [hpid] at hpid2
      rw [← Option.some.inj hpid2, hr] at hr2
      exact absurd hr2 (by simp)
    · rcases hc : alookup par D with _ | pcfg
      · rw [stepB_eval_nocfg hpid hr hc]
        intro pid2 hpid2 D2 hr2 pcfg2 hc2
        rw [hpid] at hpid2
        rw [← Option.some.inj hpid2, hr] at hr2
        rw [← Option.some.inj hr2, hc] at hc2
        exact absurd hc2 (by simp)
      · rcases hb : isT pcfg.base_snapshot_id with _ | _
        · rw [stepB_eval_resolve hpid hr hc hb]
          rcases hres : phaseBResolve pt snap ws0 arr pid pcfg with _ | bw
          · simp only [hres]
            intro pid2 hpid2 D2 hr2 pcfg2 hc2
            rw [hpid] at hpid2
            have hp2 : pid2 = pid := (Option.some.inj hpid2).symm
            rw [hp2] at hr2 ⊢
            rw [hr] at hr2
            have hD2 : D2 = D := (Option.some.inj hr2).symm
            rw [hD2, hc] at hc2
            have hpc : pcfg2 = pcfg := (Option.some.inj hc2).symm
            rw [hpc]
            exact Or.inr hres
          · obtain ⟨bid, wid⟩ := bw
            simp only [hres]
            intro pid2 hpid2 D2 hr2 pcfg2 hc2
            rw [hpid] at hpid2
            have hp2 : pid2 = pid := (Option.some.inj hpid2).symm
            rw [hp2] at hr2 ⊢
            have hkeys : ∀ k, (alookup (aset par D
                { pcfg with base_snapshot_id := some bid, base_workspace_id := wid }) k).isSome
                = (alookup par k).isSome :=
              aset_keys (by rw [hc]; rfl)
            rw [rootOf_congr_par _ par ws0 arr pid p.project_path hkeys, hr] at hr2
            have hD2 : D2 = D := (Option.some.inj hr2).symm
            rw [hD2, alookup_aset_self] at hc2
            have hpc := (Option.some.inj hc2).symm
            rw [hpc]
            left
            show isT (some bid) = true
            simp [isT, truthyOpt, resolve_ne hres]
        · rw [stepB_eval_truthy hpid hr hc hb]
          intro pid2 hpid2 D2 hr2 pcfg2 hc2
          rw [hpid] at hpid2
          have hp2 : pid2 = pid := (Option.some.inj hpid2).symm
          rw [hp2] at hr2 ⊢
          rw [hr] at hr2
          have hD2 : D2 = D := (Option.some.inj hr2).symm
          rw [hD2, hc] at hc2
          rw [← Option.some.inj hc2]
          exact Or.inl hb

theorem stepB_preserve (pt : String → Option Int) (snap : SnapMap) (ws0 arr : List WsRec)
    (p q : ProjRec) (par : ParMap) (hst : StableB pt snap ws0 arr p par) :
    StableB pt snap ws0 arr p (phaseBStep pt snap ws0 arr q par).1 := by
  rcases hpid : truthyOpt q.project_id with _ | pid
  · rw [stepB_eval_nopid hpid]
    exact hst
  · rcases hr : rootOf par ws0 arr pid q.project_path with _ | D
    · rw [stepB_eval_noroot hpid hr]
      exact hst
    · rcases hc : alookup par D with _ | pcfg
      · rw [stepB_eval_nocfg hpid hr hc]
        exact hst
      · rcases hb : isT pcfg.base_snapshot_id with _ | _
        · rw [stepB_eval_resolve hpid hr hc hb]
          rcases hres : phaseBResolve pt snap ws0 arr pid pcfg with _ | bw
          · simp only [hres]
            exact hst
          · obtain ⟨bid, wid⟩ := bw
            simp only [hres]
            intro pid2 hpid2 D2 hr2 pcfg2 hc2
            have hkeys : ∀ k, (alookup (aset par D
                { pcfg with base_snapshot_id := some bid, base_workspace_id := wid }) k).isSome
                = (alookup par k).isSome :=
              aset_keys (by rw [hc]; rfl)
            rw [rootOf_congr_par _ par ws0 arr pid2 p.project_path hkeys] at hr2
            rcases Decidable.em (D2 = D) with rfl | hne
            · rw [alookup_aset_self] at hc2
              have hpc := (Option.some.inj hc2).symm
              rw [hpc]
              left
              show isT (some bid) = true
              simp [isT, truthyOpt, resolve_ne hres]
            · rw [alookup_aset_ne _ _ _ _ hne] at hc2
              exact hst pid2 hpid2 D2 hr2 pcfg2 hc2
        · rw [stepB_eval_truthy hpid hr hc hb]
          exact hst

theorem runB_preserve (pt : String → Option Int) (snap : SnapMap) (ws0 arr : List WsRec)
    (p : ProjRec) :
    ∀ (ps : List ProjRec) (par : ParMap), StableB pt snap ws0 arr p par →
      StableB pt snap ws0 arr p (phaseBRun pt snap ws0 arr ps par).1
  | [], _, h => h
  | q :: rest, par, h =>
    runB_preserve pt snap ws0 arr p rest _ (stepB_preserve pt snap ws0 arr p q par h)

theorem runB_stable_all (pt : String → Option Int) (snap : SnapMap) (ws0 arr : List WsRec) :
    ∀ (ps : List ProjRec) (par : ParMap) (p : ProjRec), p ∈ ps →
      StableB pt snap ws0 arr p (phaseBRun pt snap ws0 arr ps par).1
  | [], _, p, hp => absurd hp (List.not_mem_nil p)
  | q :: rest, par, p, hp => by
    rcases List.mem_cons.mp hp with rfl | hp2
    · exact runB_preserve pt snap ws0 arr p rest _ (stepB_establish pt snap ws0 arr p par)
    · exact runB_stable_all pt snap ws0 arr rest _ p hp2

theorem runB_noop (pt : String → Option Int) (snap : SnapMap) (ws0 arr : List WsRec) :
    ∀ (ps : List ProjRec) (par : ParMap),
      (∀ p ∈ ps, StableB pt snap ws0 arr p par) →
      phaseBRun pt snap ws0 arr ps par = (par, 0)
  | [], _, _ => rfl
  | q :: rest, par, h => by
    rw [phaseBRun]
    rw [stableB_noop (h q (List.mem_cons_self q rest))]
    rw [runB_noop pt snap ws0 arr rest par (fun p hp => h p (List.mem_cons_of_mem q hp))]
    rfl

theorem wsByProject_congr {ws0 arr : List WsRec}
    (hlen : arr.length = ws0.length)
    (hshape : ∀ j, (arr.get? j).map wsShape = (ws0.get? j).map wsShape) :
    ∀ pid, wsByProject arr pid = wsByProject ws0 pid := by
  intro pid
  rw [wsByProject, wsByProject, hlen]
  apply List.filter_congr
  intro i _
  rcases h0 : ws0.get? i with _ | w0
  · have h1 : arr.get? i = none := by
      have := hshape i
      rw [h0] at this
      rcases h2 : arr.get? i with _ | w1
      · rfl
      · rw [h2] at this
        exact absurd this (by simp)
    rw [h1]
  · have h1 : ∃ w1, arr.get? i = some w1 ∧ wsShape w1 = wsShape w0 := by
      have := hshape i
      rw [h0] at this
      rcases h2 : arr.get? i with _ | w1
      · rw [h2] at this
        exact absurd this (by simp)
      · rw [h2] at this
        exact ⟨w1, rfl, by simpa using this⟩
    obtain ⟨w1, h2, h3⟩ := h1
    rw [h2]
    have hpj : w1.project_id = w0.project_id := congrArg (fun t => t.1) h3
    show (truthyOpt w1.project_id == some pid) = (truthyOpt w0.project_id == some pid)
    rw [hpj]

theorem wsById_congr {ws0 arr : List WsRec}
    (hlen : arr.length = ws0.length)
    (hid : ∀ j, (arr.get? j).map WsRec.workspace_id = (ws0.get? j).map WsRec.workspace_id) :
    ∀ wid, wsById arr wid = wsById ws0 wid := by
  intro wid
  rw [wsById, wsById, hlen]
  have : ((List.range ws0.length).filter fun i =>
      match arr.get? i with
      | some w => truthyOpt w.workspace_id == some wid
      | none => false) =
      ((List.range ws0.length).filter fun i =>
      match ws0.get? i with
      | some w => truthyOpt w.workspace_id == some wid
      | none => false) := by
    apply List.filter_congr
    intro i _
    rcases h0 : ws0.get? i with _ | w0
    · have h1 : arr.get? i = none := by
        have := hid i
        rw [h0] at this
        rcases h2 : arr.get? i with _ | w1
        · rfl
        · rw [h2] at this
          exact absurd this (by simp)
      rw [h1]
    · have h1 : ∃ w1, arr.get? i = some w1 ∧ w1.workspace_id = w0.workspace_id := by
        have := hid i
        rw [h0] at this
        rcases h2 : arr.get? i with _ | w1
        · rw [h2] at this
          exact absurd this (by simp)
        · rw [h2] at this
          exact ⟨w1, rfl, by simpa using this⟩
      obtain ⟨w1, h2, h3⟩ := h1
      rw [h2]
      show (truthyOpt w1.workspace_id == some wid) = (truthyOpt w0.workspace_id == some wid)
      rw [h3]
  rw [this]

theorem rootOf_congr_ws {ws0 arr : List WsRec} {par : ParMap} {pid : String}
    {pp : Option (List String)}
    (hproj : ∀ q, wsByProject arr q = wsByProject ws0 q) :
    rootOf par arr arr pid pp = rootOf par ws0 arr pid pp := by
  rcases pp with _ | p0
  · simp only [rootOf, hproj pid]
  · simp only [rootOf, hproj pid]

theorem resolve_congr_ws {pt : String → Option Int} {snap : SnapMap} {ws0 arr : List WsRec}
    {pid : String} {pcfg : ParentCfg}
    (hproj : ∀ q, wsByProject arr q = wsByProject ws0 q)
    (hids : ∀ wid, wsById arr wid = wsById ws0 wid) :
    phaseBResolve pt snap arr arr pid pcfg = phaseBResolve pt snap ws0 arr pid pcfg := by
  rw [phaseBResolve, phaseBResolve]
  rcases hn : truthyOpt pcfg.base_workspace_id with _ | bwid
  · simp only [hn, hproj pid]
  · simp only [hn, hids bwid, hproj pid]

theorem stepB_congr_ws {pt : String → Option Int} {snap : SnapMap} {ws0 arr : List WsRec}
    {p : ProjRec} {par : ParMap}
    (hproj : ∀ q, wsByProject arr q = wsByProject ws0 q)
    (hids : ∀ wid, wsById arr wid = wsById ws0 wid) :
    phaseBStep pt snap arr arr p par = phaseBStep pt snap ws0 arr p par := by
  rw [phaseBStep, phaseBStep]
  rcases hpid : truthyOpt p.project_id with _ | pid
  · rfl
  · simp only [hpid, rootOf_congr_ws hproj]
    rcases hr : rootOf par ws0 arr pid p.project_path with _ | D
    · rfl
    · simp only
      rcases hc : alookup par D with _ | pcfg
      · rfl
      · simp only [resolve_congr_ws hproj hids]

theorem runB_congr_ws {pt : String → Option Int} {snap : SnapMap} {ws0 arr : List WsRec}
    (hproj : ∀ q, wsByProject arr q = wsByProject ws0 q)
    (hids : ∀ wid, wsById arr wid = wsById ws0 wid) :
    ∀ (ps : List ProjRec) (par : ParMap),
      phaseBRun pt snap arr arr ps par = phaseBRun pt snap ws0 arr ps par
  | [], _ => rfl
  | p :: rest, par => by
    rw [phaseBRun, phaseBRun, stepB_congr_ws hproj hids,
      runB_congr_ws hproj hids rest]

theorem replStep_congr_ws {ws0 arr : List WsRec} {par : ParMap} {p : ProjRec}
    {st : SnapMap × ManifMap}
    (hproj : ∀ q, wsByProject arr q = wsByProject ws0 q)
    (hids : ∀ wid, wsById arr wid = wsById ws0 wid) :
    replStep arr arr par p st = replStep ws0 arr par p st := by
  rw [replStep, replStep]
  rcases hpid : truthyOpt p.project_id with _ | pid
  · rfl
  · simp only [hpid, rootOf_congr_ws hproj]
    rcases hr : rootOf par ws0 arr pid p.project_path with _ | D
    · rfl
    · simp only
      rcases hc : alookup par D with _ | pcfg
      · rfl
      · simp only [hids, hproj pid]

theorem replRun_congr_ws {ws0 arr : List WsRec} {par : ParMap}
    (hproj : ∀ q, wsByProject arr q = wsByProject ws0 q)
    (hids : ∀ wid, wsById arr wid = wsById ws0 wid) :
    ∀ (ps : List ProjRec) (st : SnapMap × ManifMap),
      replRun arr arr par ps st = replRun ws0 arr par ps st
  | [], _ => rfl
  | p :: rest, st => by
    rw [replRun, replRun, replStep_congr_ws hproj hids,
      replRun_congr_ws hproj hids rest]


/-- Claim C2 counterexample: on `fsC2` the first run reports
`copied_bases = 2` (successful replications are counted even when nothing is
written), its replication copies the `s1` metadata into workspace `w2`'s
snapshot store, and the second run — far from performing zero writes with
all-zero counters — repairs `w2`'s config from the newly copied metadata,
changing the on-disk state and reporting nonzero counters. -/
theorem c2_counterexample :
    (mainRun (fun _ => none) fsC2).2 = ⟨0, 0, 0, 2⟩ ∧
    (mainRun (fun _ => none) ((mainRun (fun _ => none) fsC2).1)).2 = ⟨1, 1, 0, 2⟩ ∧
    (mainRun (fun _ => none) ((mainRun (fun _ => none) fsC2).1)).1 ≠
      (mainRun (fun _ => none) fsC2).1 := by
  refine ⟨by decide, by decide, by decide⟩


theorem mainRun_some (pt : String → Option Int) (fs : FS) (idx : Index)
    (hidx : fs.index = some idx) :
    mainRun pt fs =
      ({ index := if (stageA pt fs idx).2.2.2 > 0
            then some ⟨(stageA pt fs idx).1, idx.projects, idx.other⟩ else some idx
         configs := (stageA pt fs idx).2.1
         snapdirs := (stageR pt fs idx).1.1
         manifdirs := (stageR pt fs idx).1.2
         parents := (stageB pt fs idx).1 },
        ⟨(stageA pt fs idx).2.2.1, (stageA pt fs idx).2.2.2, (stageB pt fs idx).2,
          (stageR pt fs idx).2⟩) := by
  rw [mainRun, hidx]
  rfl

/-- Claim C2 (amended): reconciliation is idempotent from any state whose
first run replicates nothing: when the first run reports zero snapshots
copied, a second run changes no document and reports all four counters as
zero.  Without that proviso the property fails (see the counterexample):
the snapshots-copied counter counts successful replications rather than
writes, and a first run's replication can enable new repairs on the second
run. -/
theorem c2_amended (pt : String → Option Int) (fs : FS)
    (h : (mainRun pt fs).2.copied_bases = 0) :
    mainRun pt ((mainRun pt fs).1) = ((mainRun pt fs).1, ⟨0, 0, 0, 0⟩) := by
  rcases hidx : fs.index with _ | idx
  · have h1 : mainRun pt fs = (fs, ⟨0, 0, 0, 0⟩) := by rw [mainRun, hidx]
    rw [h1]
    exact h1
  · have hm1 := mainRun_some pt fs idx hidx
    have hR2 : (stageR pt fs idx).2 = 0 := by
      rw [hm1] at h
      exact h
    have hRst : (stageR pt fs idx).1 = (fs.snapdirs, fs.manifdirs) :=
      replRun_zero idx.projects (fs.snapdirs, fs.manifdirs) hR2
    have hstabA : ∀ j ∈ List.range idx.workspaces.length,
        StableA pt fs.snapdirs (stageA pt fs idx).1 (stageA pt fs idx).2.1 j :=
      fun j hj => runA_stable_all pt fs.snapdirs (List.range idx.workspaces.length)
        idx.workspaces fs.configs j hj
    have hstabB : ∀ p ∈ idx.projects,
        StableB pt fs.snapdirs idx.workspaces (stageA pt fs idx).1 p (stageB pt fs idx).1 :=
      fun p hp => runB_stable_all pt fs.snapdirs idx.workspaces (stageA pt fs idx).1
        idx.projects fs.parents p hp
    have hf_cfg : (mainRun pt fs).1.configs = (stageA pt fs idx).2.1 := by
      rw [hm1]
    have hf_snap : (mainRun pt fs).1.snapdirs = fs.snapdirs := by
      rw [hm1]
      show (stageR pt fs idx).1.1 = fs.snapdirs
      rw [hRst]
    have hf_manif : (mainRun pt fs).1.manifdirs = fs.manifdirs := by
      rw [hm1]
      show (stageR pt fs idx).1.2 = fs.manifdirs
      rw [hRst]
    have hf_par : (mainRun pt fs).1.parents = (stageB pt fs idx).1 := by
      rw [hm1]
    rcases Nat.eq_zero_or_pos ((stageA pt fs idx).2.2.2) with hui | hui
    · -- the registry cache was not updated: the index document is untouched
      have harr : (stageA pt fs idx).1 = idx.workspaces :=
        runA_ui_zero pt fs.snapdirs (List.range idx.workspaces.length) idx.workspaces
          fs.configs hui
      have hf_idx : (mainRun pt fs).1.index = some idx := by
        rw [hm1]
        show (if (stageA pt fs idx).2.2.2 > 0 then _ else some idx) = some idx
        rw [hui]
        rfl
      have hm2 := mainRun_some pt (mainRun pt fs).1 idx hf_idx
      have hsA2 : stageA pt (mainRun pt fs).1 idx =
          (idx.workspaces, (stageA pt fs idx).2.1, 0, 0) := by
        unfold stageA
        rw [hf_snap, hf_cfg]
        have hstabA2 := hstabA
        rw [harr] at hstabA2
        exact runA_noop pt fs.snapdirs (List.range idx.workspaces.length) idx.workspaces
          (stageA pt fs idx).2.1 hstabA2
      have hsB2 : stageB pt (mainRun pt fs).1 idx = ((stageB pt fs idx).1, 0) := by
        unfold stageB
        rw [hsA2, hf_snap, hf_par]
        show phaseBRun pt fs.snapdirs idx.workspaces idx.workspaces idx.projects
          (stageB pt fs idx).1 = ((stageB pt fs idx).1, 0)
        have hstabB2 := hstabB
        rw [harr] at hstabB2
        exact runB_noop pt fs.snapdirs idx.workspaces idx.workspaces idx.projects
          (stageB pt fs idx).1 hstabB2
      have hsR2 : stageR pt (mainRun pt fs).1 idx = ((fs.snapdirs, fs.manifdirs), 0) := by
        unfold stageR
        rw [hsA2, hsB2, hf_snap, hf_manif]
        show replRun idx.workspaces idx.workspaces (stageB pt fs idx).1 idx.projects
          (fs.snapdirs, fs.manifdirs) = ((fs.snapdirs, fs.manifdirs), 0)
        have h1 : replRun idx.workspaces idx.workspaces (stageB pt fs idx).1 idx.projects
            (fs.snapdirs, fs.manifdirs) = stageR pt fs idx := by
          unfold stageR
          rw [harr]
        rw [h1, ← hRst, ← hR2]
      rw [hm2, hsA2, hsB2, hsR2, hm1, hui, hRst]
      rfl
    · -- the registry cache was updated and the index document rewritten
      have hlen : (stageA pt fs idx).1.length = idx.workspaces.length :=
        runA_length pt fs.snapdirs (List.range idx.workspaces.length) idx.workspaces
          fs.configs
      have hshape : ∀ j, ((stageA pt fs idx).1.get? j).map wsShape =
          (idx.workspaces.get? j).map wsShape :=
        fun j => (runA_arr_get pt fs.snapdirs (List.range idx.workspaces.length)
          idx.workspaces fs.configs j).1
      have hid : ∀ j, ((stageA pt fs idx).1.get? j).map WsRec.workspace_id =
          (idx.workspaces.get? j).map WsRec.workspace_id :=
        fun j => (runA_arr_get pt fs.snapdirs (List.range idx.workspaces.length)
          idx.workspaces fs.configs j).2
      have hproj := wsByProject_congr hlen hshape
      have hids := wsById_congr hlen hid
      have hf_idx : (mainRun pt fs).1.index =
          some ⟨(stageA pt fs idx).1, idx.projects, idx.other⟩ := by
        rw [hm1]
        show (if (stageA pt fs idx).2.2.2 > 0 then
          some ⟨(stageA pt fs idx).1, idx.projects, idx.other⟩ else some idx) = _
        rw [if_pos hui]
      have hm2 := mainRun_some pt (mainRun pt fs).1
        ⟨(stageA pt fs idx).1, idx.projects, idx.other⟩ hf_idx
      have hsA2 : stageA pt (mainRun pt fs).1
          ⟨(stageA pt fs idx).1, idx.projects, idx.other⟩ =
          ((stageA pt fs idx).1, (stageA pt fs idx).2.1, 0, 0) := by
        unfold stageA
        rw [hf_snap, hf_cfg]
        show phaseARun pt fs.snapdirs (List.range (stageA pt fs idx).1.length)
          (stageA pt fs idx).1 (stageA pt fs idx).2.1 = _
        rw [hlen]
        exact runA_noop pt fs.snapdirs (List.range idx.workspaces.length)
          (stageA pt fs idx).1 (stageA pt fs idx).2.1 hstabA
      have hsB2 : stageB pt (mainRun pt fs).1
          ⟨(stageA pt fs idx).1, idx.projects, idx.other⟩ = ((stageB pt fs idx).1, 0) := by
        unfold stageB
        rw [hsA2, hf_snap, hf_par]
        show phaseBRun pt fs.snapdirs (stageA pt fs idx).1 (stageA pt fs idx).1
          idx.projects (stageB pt fs idx).1 = ((stageB pt fs idx).1, 0)
        rw [runB_congr_ws hproj hids idx.projects (stageB pt fs idx).1]
        exact runB_noop pt fs.snapdirs idx.workspaces (stageA pt fs idx).1 idx.projects
          (stageB pt fs idx).1 hstabB
      have hsR2 : stageR pt (mainRun pt fs).1
          ⟨(stageA pt fs idx).1, idx.projects, idx.other⟩ =
          ((fs.snapdirs, fs.manifdirs), 0) := by
        unfold stageR
        rw [hsA2, hsB2, hf_snap, hf_manif]
        show replRun (stageA pt fs idx).1 (stageA pt fs idx).1 (stageB pt fs idx).1
          idx.projects (fs.snapdirs, fs.manifdirs) = ((fs.snapdirs, fs.manifdirs), 0)
        rw [replRun_congr_ws hproj hids idx.projects (fs.snapdirs, fs.manifdirs)]
        show stageR pt fs idx = ((fs.snapdirs, fs.manifdirs), 0)
        rw [← hRst, ← hR2]
      rw [hm2, hsA2, hsB2, hsR2, hm1, if_pos hui, hRst]
      rfl

/-- Claim C2 (amended) witness: a run that repairs a parent config but
copies nothing satisfies the proviso, and a second run is a no-op with
all-zero counters. -/
theorem c2_witness :
    mainRun (fun _ => none) ((mainRun (fun _ => none)
      { index := some ⟨[⟨some "w1", some "p", some ["B"], some "s2", []⟩],
          [⟨some "p", some ["R"]⟩], []⟩
        configs := []
        snapdirs := []
        manifdirs := []
        parents := [(["R"], ⟨none, none, []⟩)] }).1) =
      ((mainRun (fun _ => none)
      { index := some ⟨[⟨some "w1", some "p", some ["B"], some "s2", []⟩],
          [⟨some "p", some ["R"]⟩], []⟩
        configs := []
        snapdirs := []
        manifdirs := []
        parents := [(["R"], ⟨none, none, []⟩)] }).1, ⟨0, 0, 0, 0⟩) :=
  c2_amended (fun _ => none) _ (by decide)

end Repair
